import Mathlib

/-!
Verification of the batch sentiment-processing pipeline of the TweeterSentiment
repository against its natural-language specification.

The TypeScript sources are shallowly embedded as Lean functions:

* JS strings are modelled as Lean `String` / `List Char` (UTF-16 code units are
  treated as characters; none of the verified properties depend on surrogate
  pairs).
* JS numbers appearing in sentiment scores are modelled as exact rationals
  (`ℚ`); thresholds such as `0.8` denote the exact rational.
* Promise-returning functions that can reject are modelled with `Except`;
  functions whose body is wrapped in a catch-all `try/catch` that returns a
  value are total Lean functions.
* The network is modelled by explicit transport oracles
  (`Nat → FetchOutcome`, indexed by the retry attempt), so theorems quantify
  over every possible transport behaviour.
-/

/-- Decides whether `needle` occurs as a contiguous subsequence of the second
list.  This models JavaScript `String.prototype.includes`. -/
def containsSeq (needle : List Char) : List Char → Bool
  | [] => needle.isEmpty
  | c :: t => needle.isPrefixOf (c :: t) || containsSeq needle t

/-- JavaScript `haystack.includes(sub)`. -/
def jsIncludes (haystack sub : String) : Bool :=
  containsSeq sub.data haystack.data

/-- JavaScript `a || b` on an optional string operand: the empty string is
falsy, so it falls through to the default. -/
def jsStringOr (v : Option String) (dflt : String) : String :=
  match v with
  | some s => if s = "" then dflt else s
  | none => dflt

/-- JavaScript `a || b` on an optional numeric operand: `0` is falsy, so it
falls through to the default. -/
def jsRatOr (v : Option ℚ) (dflt : ℚ) : ℚ :=
  match v with
  | some q => if q = 0 then dflt else q
  | none => dflt

/-- ASCII lower-casing of one character (`String.prototype.toLowerCase`; the
backend labels and month names this is applied to are ASCII). -/
def charToLower (c : Char) : Char :=
  if 'A' ≤ c && c ≤ 'Z' then Char.ofNat (c.toNat + 32) else c

/-- ASCII upper-casing of one character (`String.prototype.toUpperCase`). -/
def charToUpper (c : Char) : Char :=
  if 'a' ≤ c && c ≤ 'z' then Char.ofNat (c.toNat - 32) else c

/-- `s.toLowerCase()`. -/
def jsToLower (s : String) : String :=
  ⟨s.data.map charToLower⟩

/-- `s.toUpperCase()`. -/
def jsToUpper (s : String) : String :=
  ⟨s.data.map charToUpper⟩

/-- JavaScript `Math.round(x * 100) / 100` (`Math.round` rounds halves toward
positive infinity). -/
def round2 (q : ℚ) : ℚ :=
  (⌊q * 100 + 1/2⌋ : ℤ) / 100

/-- The `SentimentAnalysisResult` interface (src/lib/supabase.ts).  The
`sentiment` field is a string because the Claude path can return values outside
the five canonical labels (see the C2 analysis). -/
structure SentimentResult where
  sentiment : String
  confidence : ℚ
  sentimentValue : Int
  label : String
  score : ℚ
deriving DecidableEq, Repr

/-- The closed set of canonical sentiment labels (`SentimentType` in the
sources). -/
def validSentiments : List String :=
  ["very_negative", "negative", "neutral", "positive", "very_positive"]

/-- The fixed label-to-value mapping stated by the specification
(very_negative = -2 … very_positive = 2); `none` for a non-canonical label.
This matches `getSentimentValue` / `SENTIMENT_CONFIG.LEVELS` in the sources. -/
def specSentimentValue (s : String) : Option Int :=
  if s = "very_negative" then some (-2)
  else if s = "negative" then some (-1)
  else if s = "neutral" then some 0
  else if s = "positive" then some 1
  else if s = "very_positive" then some 2
  else none

/-- Positive-family test of `SentimentAnalysisService.analyzeSentiment`
(services.ts line 337): `labelLower === 'label_2' || labelLower.includes('pos')
|| labelLower.includes('positive')`. -/
def hfPosFamily (labelLower : String) : Bool :=
  labelLower == "label_2" || jsIncludes labelLower "pos" || jsIncludes labelLower "positive"

/-- Negative-family test (line 346). -/
def hfNegFamily (labelLower : String) : Bool :=
  labelLower == "label_0" || jsIncludes labelLower "neg" || jsIncludes labelLower "negative"

/-- Neutral-family test (line 355). -/
def hfNeuFamily (labelLower : String) : Bool :=
  labelLower == "label_1" || jsIncludes labelLower "neu" || jsIncludes labelLower "neutral"

/-- The label-interpretation step of `SentimentAnalysisService.analyzeSentiment`
(services.ts lines 328-372): maps the backend label and score to the 5-level
scale and builds the returned `SentimentAnalysisResult`. -/
def hfMapLabel (label : String) (score : ℚ) : SentimentResult :=
  let labelLower := jsToLower label
  let sv : String × Int :=
    if hfPosFamily labelLower then
      if score ≥ 0.8 then ("very_positive", 2) else ("positive", 1)
    else if hfNegFamily labelLower then
      if score ≥ 0.8 then ("very_negative", -2) else ("negative", -1)
    else if hfNeuFamily labelLower then
      if score > 0.72 then ("positive", 1) else ("neutral", 0)
    else ("neutral", 0)
  { sentiment := sv.1
    confidence := round2 score
    sentimentValue := sv.2
    label := label
    score := score }

/-- The label-interpretation step of
`SentimentAnalysisService.analyzeSentimentWithFallback` (services.ts lines
465-496); same thresholds, but without the `label_0/1/2` code checks. -/
def hfMapLabelFB (label : String) (score : ℚ) : SentimentResult :=
  let labelLower := jsToLower label
  let sv : String × Int :=
    if jsIncludes labelLower "pos" || jsIncludes labelLower "positive" then
      if score ≥ 0.8 then ("very_positive", 2) else ("positive", 1)
    else if jsIncludes labelLower "neg" || jsIncludes labelLower "negative" then
      if score ≥ 0.8 then ("very_negative", -2) else ("negative", -1)
    else if jsIncludes labelLower "neu" || jsIncludes labelLower "neutral" then
      if score > 0.72 then ("positive", 1) else ("neutral", 0)
    else ("neutral", 0)
  { sentiment := sv.1
    confidence := round2 score
    sentimentValue := sv.2
    label := label
    score := score }

/-- One scored element of a classifier response, with the variably named
fields the source tolerates (`label`/`intent`, `score`/`confidence`). -/
structure HFScored where
  label : Option String
  intent : Option String
  score : Option ℚ
  confidence : Option ℚ
deriving DecidableEq, Repr

/-- `topResult.label || topResult.intent || ''` (services.ts line 328). -/
def labelOf (it : HFScored) : String :=
  jsStringOr it.label (jsStringOr it.intent "")

/-- `topResult.score || topResult.confidence || 0` (services.ts line 329). -/
def scoreOf (it : HFScored) : ℚ :=
  jsRatOr it.score (jsRatOr it.confidence 0)

/-- The key used by the sort comparator `(a, b) => b.score - a.score`
(services.ts line 325).  The comparator reads the raw `score` field; an absent
score makes the JS comparator return NaN, which leaves elements in place —
modelled as the key 0. -/
def sortKey (it : HFScored) : ℚ :=
  it.score.getD 0

/-- Insert into a list already sorted by descending `sortKey`, after all
elements with an equal or larger key.  Folding this over the input models the
ES2019 stable `Array.prototype.sort` with comparator
`(a, b) => b.score - a.score`. -/
def insertScoreDesc (x : HFScored) : List HFScored → List HFScored
  | [] => [x]
  | y :: ys => if sortKey y < sortKey x then x :: y :: ys else y :: insertScoreDesc x ys

/-- `sentimentData.sort((a, b) => b.score - a.score)` — stable descending sort
by score (services.ts line 325). -/
def jsSortByScoreDesc (l : List HFScored) : List HFScored :=
  l.foldl (fun acc x => insertScoreDesc x acc) []

/-- Follows the specification text for response selection: "an array where the
highest-`score` element is selected (ties broken by array order — first
occurrence wins)".  Used only to compare the source's behaviour against the
spec's words. -/
def specFirstMaxByScore : List HFScored → Option HFScored
  | [] => none
  | x :: xs =>
    match specFirstMaxByScore xs with
    | none => some x
    | some m => if sortKey x < sortKey m then some m else some x

/-- JavaScript error values thrown inside the classification services, with
just the structure the catch blocks inspect (`instanceof TypeError`,
`error.name`, `error.message`). -/
inductive JsError where
  | typeError (msg : String)
  | timeoutError (msg : String)
  | jsError (msg : String)
deriving DecidableEq, Repr

/-- A classifier HTTP response body, as seen after `response.json()`:
a non-empty array whose elements are objects or nested arrays of scored
objects, a plain object, or anything else (which the source rejects as an
unexpected format). -/
inductive HFElem where
  | obj (it : HFScored)
  | nested (its : List HFScored)
deriving DecidableEq, Repr

inductive HFResponse where
  | arr (elems : List HFElem)
  | obj (it : HFScored)
  | other
deriving DecidableEq, Repr

/-- Response-shape handling and top-result selection of
`SentimentAnalysisService.analyzeSentiment` (services.ts lines 313-326):
`results[0]` for a non-empty array, the object itself otherwise; then, when
the selected element is itself an array, the head of the stable descending
sort.  An empty top-level array reaches the object branch (arrays are objects
in JS) and then crashes reading `.label` of `undefined`, which the outer catch
turns into a neutral fallback. -/
def extractTopHF (fmtErrMsg : String) : HFResponse → Except JsError HFScored
  | .arr (e :: _) =>
    match e with
    | .obj it => .ok it
    | .nested its =>
      match jsSortByScoreDesc its with
      | t :: _ => .ok t
      | [] => .error (.typeError "Cannot read properties of undefined (reading 'label')")
  | .arr [] => .error (.typeError "Cannot read properties of undefined (reading 'label')")
  | .obj it => .ok it
  | .other => .error (.jsError fmtErrMsg)

/-- Outcome of one `fetch` round trip: the rejection kinds the catch blocks
distinguish, a non-2xx HTTP response, or a parsed JSON body. -/
inductive FetchOutcome where
  | netError (msg : String)
  | timeout
  | httpError (status : Nat) (statusText : String)
  | ok (resp : HFResponse)

/-- `error instanceof TypeError && (message includes 'Failed to fetch' |
'ERR_NETWORK_CHANGED' | 'NetworkError')` (services.ts lines 378-381). -/
def isNetworkError (e : JsError) : Bool :=
  match e with
  | .typeError m =>
    jsIncludes m "Failed to fetch" || jsIncludes m "ERR_NETWORK_CHANGED" || jsIncludes m "NetworkError"
  | _ => false

/-- `error instanceof Error && (name === 'TimeoutError' | message includes
'signal timed out' | 'timeout')` (services.ts lines 383-386). -/
def isTimeoutErr (e : JsError) : Bool :=
  match e with
  | .timeoutError _ => true
  | .typeError m => jsIncludes m "signal timed out" || jsIncludes m "timeout"
  | .jsError m => jsIncludes m "signal timed out" || jsIncludes m "timeout"

/-- `error instanceof Error && (message.includes('404') ||
message.includes('model'))` (services.ts lines 396-397). -/
def isModelError (e : JsError) : Bool :=
  match e with
  | .typeError m => jsIncludes m "404" || jsIncludes m "model"
  | .timeoutError m => jsIncludes m "404" || jsIncludes m "model"
  | .jsError m => jsIncludes m "404" || jsIncludes m "model"

/-- Message carried by the error a `FetchOutcome` raises inside the HF
primary-model `try` block (services.ts lines 285-308). -/
def hfAttemptError (o : FetchOutcome) : Option JsError :=
  match o with
  | .netError m => some (.typeError m)
  | .timeout => some (.timeoutError "signal timed out")
  | .httpError s st => some (.jsError ("HuggingFace API error: " ++ toString s ++ " " ++ st))
  | .ok _ => none

/-- The neutral fallback result of the HuggingFace service (services.ts
lines 404-410 and 501-507). -/
def hfNeuFallback : SentimentResult :=
  { sentiment := "neutral", confidence := 0.5, sentimentValue := 0
    label := "NEU_FALLBACK", score := 0.5 }

/-- `SentimentAnalysisService.analyzeSentimentWithFallback` (services.ts lines
417-509).  `fbT` is the single fallback-model round trip (the function does
not retry).  Every failure inside is caught and turned into the neutral
fallback, so the function is total. -/
def analyzeSentimentWithFallback (fbT : FetchOutcome) (_text : String) : SentimentResult :=
  match fbT with
  | .ok resp =>
    match extractTopHF "Unexpected response format from fallback model" resp with
    | .ok it => hfMapLabelFB (labelOf it) (scoreOf it)
    | .error _ => hfNeuFallback
  | _ => hfNeuFallback

/-- `SentimentAnalysisService.analyzeSentiment` (services.ts lines 269-412).
`key` is the HuggingFace API key (empty when unconfigured — the one case in
which the source throws before entering the `try` block), `primary` gives the
transport outcome of each retry attempt, `fbT` the fallback model's round
trip.  Transient (network/timeout) failures are retried up to `maxRetries = 2`
with exponential backoff (the delays are irrelevant to the result); 404/model
errors divert to the fallback model; everything else degrades to the neutral
fallback. -/
def analyzeSentimentHF (key : String) (primary : Nat → FetchOutcome) (fbT : FetchOutcome)
    (text : String) (retryCount : Nat) : Except JsError SentimentResult :=
  if key = "" then
    .error (.jsError "HuggingFace API key not configured")
  else
    let attempt : Except JsError SentimentResult :=
      match primary retryCount with
      | .ok resp =>
        match extractTopHF "Unexpected response format from HuggingFace API" resp with
        | .ok it => .ok (hfMapLabel (labelOf it) (scoreOf it))
        | .error e => .error e
      | o =>
        match hfAttemptError o with
        | some e => .error e
        | none => .ok hfNeuFallback
    match attempt with
    | .ok r => .ok r
    | .error e =>
      if h : (isNetworkError e || isTimeoutErr e) && retryCount < 2 then
        analyzeSentimentHF key primary fbT text (retryCount + 1)
      else if isModelError e then
        .ok (analyzeSentimentWithFallback fbT text)
      else
        .ok hfNeuFallback
termination_by 2 - retryCount
decreasing_by
  simp only [Bool.and_eq_true, decide_eq_true_eq] at h
  omega

/-- The neutral fallback of the backend Claude service (claude-service.ts
lines 75-81). -/
def claudeNeuFallback : SentimentResult :=
  { sentiment := "neutral", confidence := 0.5, sentimentValue := 0
    label := "CLAUDE_NEU_FALLBACK", score := 0.5 }

/-- Body of a successful backend Claude response as the frontend sees it:
either usable parsed data (a sentiment string plus optional confidence), or
one of the parse failures the source throws on. -/
inductive ClaudeFetch where
  | netError (msg : String)
  | timeout
  | httpError (status : Nat) (statusText : String)
  | okPassthrough (r : SentimentResult)
  | okNoContent
  | okBadJson
  | okData (sentiment : String) (confidence : Option ℚ)

/-- The error raised by a failed Claude round trip, as inspected by the catch
blocks. -/
def claudeAttemptError (o : ClaudeFetch) (prefixMsg : String) : Option JsError :=
  match o with
  | .netError m => some (.typeError m)
  | .timeout => some (.timeoutError "signal timed out")
  | .httpError s st => some (.jsError (prefixMsg ++ ": " ++ toString s ++ " " ++ st))
  | .okNoContent => some (.jsError "No content in Claude response")
  | .okBadJson => some (.jsError "Invalid JSON response from Claude")
  | .okPassthrough _ => none
  | .okData _ _ => none

/-- `ClaudeSentimentAnalysisService.analyzeSentiment` of claude-service.ts
(lines 16-83): calls the backend proxy, retries network/timeout failures up to
`MAX_RETRIES = 2`, passes a successful body through unvalidated, and returns
the neutral fallback otherwise.  There is no API-key guard, so the function
never rejects. -/
def claudeServiceAnalyze (transport : Nat → ClaudeFetch) (text : String)
    (retryCount : Nat) : SentimentResult :=
  match transport retryCount with
  | .okPassthrough r => r
  | .okData s c => .mk s (jsRatOr c 0.5) 0 "" (jsRatOr c 0.5)
  | o =>
    let e := (claudeAttemptError o "Backend API error").getD (.jsError "")
    if h : (isNetworkError e || isTimeoutErr e) && retryCount < 2 then
      claudeServiceAnalyze transport text (retryCount + 1)
    else
      claudeNeuFallback
termination_by 2 - retryCount
decreasing_by
  simp only [Bool.and_eq_true, decide_eq_true_eq] at h
  omega

/-- The mapping step of `ClaudeSentimentAnalysisService.analyzeSentiment`
(services.ts lines 660-700).  The source's validation of the parsed sentiment
writes its neutral default into `sentimentData.sentiment`, a field that is
never read again; the local `sentiment` used by the `switch` and by the
returned object is the unvalidated value, so a non-canonical sentiment string
flows through with `sentimentValue = 0`. -/
def claudeMapResponse (sentiment : String) (confidence : Option ℚ) : SentimentResult :=
  let conf := jsRatOr confidence 0.5
  let sentimentValue : Int :=
    if sentiment = "very_negative" then -2
    else if sentiment = "negative" then -1
    else if sentiment = "neutral" then 0
    else if sentiment = "positive" then 1
    else if sentiment = "very_positive" then 2
    else 0
  { sentiment := sentiment
    confidence := round2 conf
    sentimentValue := sentimentValue
    label := "CLAUDE_" ++ jsToUpper sentiment
    score := conf }

/-- The proxy fallback result (services.ts lines 850-857).  Note the label is
`CLAUDE_PROXY_FALLBACK`, not `CLAUDE_PROXY_NEU_FALLBACK`. -/
def claudeProxyFallback : SentimentResult :=
  { sentiment := "neutral", confidence := 0.5, sentimentValue := 0
    label := "CLAUDE_PROXY_FALLBACK", score := 0.5 }

/-- `ClaudeSentimentAnalysisService.analyzeSentimentWithProxy` (services.ts
lines 750-858): one round trip through a CORS proxy, same mapping as the
direct path but with a `CLAUDE_PROXY_` label prefix, and a catch-all that
returns `claudeProxyFallback`; the function is total and does not retry. -/
def analyzeSentimentWithProxy (transport : ClaudeFetch) (_text : String) : SentimentResult :=
  match transport with
  | .okData s c =>
    let conf := jsRatOr c 0.5
    let sentimentValue : Int :=
      if s = "very_negative" then -2
      else if s = "negative" then -1
      else if s = "neutral" then 0
      else if s = "positive" then 1
      else if s = "very_positive" then 2
      else 0
    { sentiment := s, confidence := round2 conf, sentimentValue := sentimentValue
      label := "CLAUDE_PROXY_" ++ jsToUpper s, score := conf }
  | .okPassthrough r => r
  | _ => claudeProxyFallback

/-- Chunked batch loop of `ClaudeSentimentAnalysisService.analyzeSentimentsBatch`
(claude-service.ts lines 88-120): slices of `CONCURRENCY = 3` texts are mapped
in parallel with `Promise.all`, whose result array preserves input order, and
appended to the accumulator in slice order.  `f` is the per-text classifier
(`this.analyzeSentiment`, a total function). -/
def claudeBatchAnalyze (f : String → SentimentResult) : List String → List SentimentResult
  | [] => []
  | t :: ts => ((t :: ts).take 3).map f ++ claudeBatchAnalyze f ((t :: ts).drop 3)
termination_by l => l.length
decreasing_by
  simp only [List.length_drop, List.length_cons]
  omega

/-- Per-item wrapper of `SentimentAnalysisService.analyzeSentimentsBatch`
(services.ts lines 541-555): an unexpected per-item rejection is caught and
replaced by the neutral fallback. -/
def hfBatchItem (classify : String → Except JsError SentimentResult) (t : String) :
    SentimentResult :=
  match classify t with
  | .ok r => r
  | .error _ => hfNeuFallback

/-- Inner chunk loop (concurrency 3) of
`SentimentAnalysisService.analyzeSentimentsBatch` (services.ts lines 530-566). -/
def hfChunkLoop (classify : String → Except JsError SentimentResult) :
    List String → List SentimentResult
  | [] => []
  | t :: ts =>
    ((t :: ts).take 3).map (hfBatchItem classify) ++ hfChunkLoop classify ((t :: ts).drop 3)
termination_by l => l.length
decreasing_by
  simp only [List.length_drop, List.length_cons]
  omega

/-- Outer batch loop (batch size 10) of
`SentimentAnalysisService.analyzeSentimentsBatch` (services.ts lines 514-578).
The warm-up call and the pacing delays do not contribute to the result. -/
def analyzeSentimentsBatchHF (classify : String → Except JsError SentimentResult) :
    List String → List SentimentResult
  | [] => []
  | t :: ts =>
    hfChunkLoop classify ((t :: ts).take 10) ++ analyzeSentimentsBatchHF classify ((t :: ts).drop 10)
termination_by l => l.length
decreasing_by
  simp only [List.length_drop, List.length_cons]
  omega

/-- The character for the decimal digit `n % 10`. -/
def digitChar (n : Nat) : Char :=
  match n % 10 with
  | 0 => '0' | 1 => '1' | 2 => '2' | 3 => '3' | 4 => '4'
  | 5 => '5' | 6 => '6' | 7 => '7' | 8 => '8' | _ => '9'

/-- Numeric value of a decimal digit character. -/
def digitVal (c : Char) : Nat :=
  c.toNat - 48

/-- Two-digit zero-padded decimal rendering (for values below 100). -/
def pad2 (n : Nat) : String :=
  ⟨[digitChar (n / 10), digitChar n]⟩

/-- Three-digit zero-padded decimal rendering (for values below 1000). -/
def pad3 (n : Nat) : String :=
  ⟨[digitChar (n / 100), digitChar (n / 10), digitChar n]⟩

/-- Four-digit zero-padded decimal rendering (for values below 10000). -/
def pad4 (n : Nat) : String :=
  ⟨[digitChar (n / 1000), digitChar (n / 100), digitChar (n / 10), digitChar n]⟩

/-- A valid JavaScript `Date`, by its UTC calendar components (an invalid
`Date` is modelled as `none` wherever one can arise).  The filtering code
calls `getFullYear` on dates obtained from UTC ISO strings; the model assumes
the runtime timezone is UTC, so UTC and local components coincide. -/
structure JsDate where
  year : Nat
  month : Nat
  day : Nat
  hour : Nat
  minute : Nat
  second : Nat
  millis : Nat
deriving DecidableEq, Repr

/-- Component ranges guaranteed for every valid `Date` whose year fits the
simple (non-expanded) ISO format. -/
def JsDate.wellFormed (d : JsDate) : Bool :=
  d.year ≤ 9999 && 1 ≤ d.month && d.month ≤ 12 && 1 ≤ d.day && d.day ≤ 31 &&
  d.hour ≤ 23 && d.minute ≤ 59 && d.second ≤ 59 && d.millis ≤ 999

/-- `Date.prototype.toISOString` for years 0-9999:
`YYYY-MM-DDTHH:mm:ss.sssZ`. -/
def JsDate.toISOString (d : JsDate) : String :=
  pad4 d.year ++ "-" ++ pad2 d.month ++ "-" ++ pad2 d.day ++ "T" ++ pad2 d.hour ++ ":" ++
    pad2 d.minute ++ ":" ++ pad2 d.second ++ "." ++ pad3 d.millis ++ "Z"

/-- Wrap a candidate date, keeping it only when its components are in range. -/
def mkWfDate (d : JsDate) : Option JsDate :=
  if d.wellFormed then some d else none

/-- Parser for the canonical ES ISO format `YYYY-MM-DDTHH:mm:ss.sssZ`.
ECMA-262 fully determines `new Date(s)` on strings of this shape (the
`Date Time String Format`), so this call is not implementation-defined: in
the embedding it models `new Date` applied to strings the code itself
constructs from matched components.  Constructed strings that do not conform
(for example a two-digit year or a three-digit day) are treated as invalid,
sending the source down its generic-parse fallback. -/
def parseIsoCanon (s : String) : Option JsDate :=
  match s.data with
  | [y1, y2, y3, y4, c1, m1, m2, c2, d1, d2, c3, h1, h2, c4, n1, n2, c5,
     s1, s2, c6, u1, u2, u3, c7] =>
    if c1 == '-' && c2 == '-' && c3 == 'T' && c4 == ':' && c5 == ':' && c6 == '.' &&
       c7 == 'Z' &&
       y1.isDigit && y2.isDigit && y3.isDigit && y4.isDigit &&
       m1.isDigit && m2.isDigit && d1.isDigit && d2.isDigit &&
       h1.isDigit && h2.isDigit && n1.isDigit && n2.isDigit &&
       s1.isDigit && s2.isDigit && u1.isDigit && u2.isDigit && u3.isDigit then
      mkWfDate
        { year := digitVal y1 * 1000 + digitVal y2 * 100 + digitVal y3 * 10 + digitVal y4
          month := digitVal m1 * 10 + digitVal m2
          day := digitVal d1 * 10 + digitVal d2
          hour := digitVal h1 * 10 + digitVal h2
          minute := digitVal n1 * 10 + digitVal n2
          second := digitVal s1 * 10 + digitVal s2
          millis := digitVal u1 * 100 + digitVal u2 * 10 + digitVal u3 }
    else none
  | _ => none

/-- JavaScript `\s` (the whitespace class used by `REGEX_PATTERNS.WHITESPACE`
and by `String.prototype.trim`). -/
def isJsWs (c : Char) : Bool :=
  c == ' ' || c == '\t' || c == '\n' || c == '\r' || c == '\x0b' || c == '\x0c' ||
  c == '\u00a0' || c == '\u1680' || ('\u2000' ≤ c && c ≤ '\u200a') ||
  c == '\u2028' || c == '\u2029' || c == '\u202f' || c == '\u205f' ||
  c == '\u3000' || c == '\ufeff'

/-- JavaScript `\w`: ASCII letters, digits and underscore. -/
def isWordChar (c : Char) : Bool :=
  ('a' ≤ c && c ≤ 'z') || ('A' ≤ c && c ≤ 'Z') || ('0' ≤ c && c ≤ '9') || c == '_'

/-- `String.prototype.trim`. -/
def trimChars (l : List Char) : List Char :=
  ((l.dropWhile isJsWs).reverse.dropWhile isJsWs).reverse

/-- `String.prototype.trim` on strings. -/
def jsTrim (s : String) : String :=
  ⟨trimChars s.data⟩

/-- The capture groups of `REGEX_PATTERNS.DATE_WITH_TIME =
/(\w+)\s+(\d+),\s+(\d+)\s+at\s+(\d+):(\d+)\s+(AM|PM)/i`. -/
structure DateMatch where
  monthName : List Char
  dayStr : List Char
  yearStr : List Char
  hourStr : List Char
  minuteStr : List Char
  isPM : Bool
deriving DecidableEq, Repr

/-- Attempt to match `DATE_WITH_TIME` starting at the head of `l`.  Because
each quantified class (`\w`, `\s`, `\d`) is disjoint from the literal or class
that follows it, the regex engine's greedy matching never needs to backtrack,
so maximal munch per component is exact. -/
def matchDateAt (l : List Char) : Option DateMatch :=
  let mn := l.takeWhile isWordChar
  if mn.isEmpty then none else
  let r1 := l.drop mn.length
  let w1 := r1.takeWhile isJsWs
  if w1.isEmpty then none else
  let r2 := r1.drop w1.length
  let dd := r2.takeWhile Char.isDigit
  if dd.isEmpty then none else
  match r2.drop dd.length with
  | ',' :: r4 =>
    let w2 := r4.takeWhile isJsWs
    if w2.isEmpty then none else
    let r5 := r4.drop w2.length
    let yy := r5.takeWhile Char.isDigit
    if yy.isEmpty then none else
    let r6 := r5.drop yy.length
    let w3 := r6.takeWhile isJsWs
    if w3.isEmpty then none else
    match r6.drop w3.length with
    | a :: t :: r8 =>
      if (a == 'a' || a == 'A') && (t == 't' || t == 'T') then
        let w4 := r8.takeWhile isJsWs
        if w4.isEmpty then none else
        let r9 := r8.drop w4.length
        let hh := r9.takeWhile Char.isDigit
        if hh.isEmpty then none else
        match r9.drop hh.length with
        | ':' :: r11 =>
          let mm := r11.takeWhile Char.isDigit
          if mm.isEmpty then none else
          let r12 := r11.drop mm.length
          let w5 := r12.takeWhile isJsWs
          if w5.isEmpty then none else
          match r12.drop w5.length with
          | p :: m :: _ =>
            if (m == 'm' || m == 'M') && (p == 'a' || p == 'A' || p == 'p' || p == 'P') then
              some ⟨mn, dd, yy, hh, mm, p == 'p' || p == 'P'⟩
            else none
          | _ => none
        | _ => none
      else none
    | _ => none
  | _ => none

/-- `trimmedDate.match(REGEX_PATTERNS.DATE_WITH_TIME)`: leftmost match. -/
def searchDateMatch : List Char → Option DateMatch
  | [] => none
  | c :: t =>
    match matchDateAt (c :: t) with
    | some m => some m
    | none => searchDateMatch t

/-- `getMonthNumber` (utils.ts lines 59-61, via `MONTH_NUMBERS`). -/
def getMonthNumber (monthName : String) : Option String :=
  let m := jsToLower monthName
  if m = "january" then some "01" else if m = "february" then some "02"
  else if m = "march" then some "03" else if m = "april" then some "04"
  else if m = "may" then some "05" else if m = "june" then some "06"
  else if m = "july" then some "07" else if m = "august" then some "08"
  else if m = "september" then some "09" else if m = "october" then some "10"
  else if m = "november" then some "11" else if m = "december" then some "12"
  else none

/-- `parseInt` applied to an all-digit capture group (exact for captures that
fit a double; the embedding uses exact naturals). -/
def digitsToNat (ds : List Char) : Nat :=
  ds.foldl (fun acc c => acc * 10 + digitVal c) 0

/-- `String.prototype.padStart(2, '0')`. -/
def padStart2 (s : String) : String :=
  if s.length ≥ 2 then s else ⟨List.replicate (2 - s.length) '0' ++ s.data⟩

/-- The `"Month Day, Year at HH:MM AM/PM"` branch of `parseTweetDate` (utils.ts
lines 19-42): the substring guard, the regex match, the month-name table, the
12-to-24-hour conversion, the ISO template construction and the `new Date`
validity check, returning the validated date's `toISOString` rendering. -/
def parseTweetDateFormatBranch (trimmed : String) : Option String :=
  if jsIncludes trimmed "at" && (jsIncludes trimmed "AM" || jsIncludes trimmed "PM") then
    match searchDateMatch trimmed.data with
    | some mt =>
      match getMonthNumber ⟨mt.monthName⟩ with
      | some monthNum =>
        let hour := digitsToNat mt.hourStr
        let hour24 := if mt.isPM && hour ≠ 12 then hour + 12
                      else if !mt.isPM && hour = 12 then 0 else hour
        let isoString := (⟨mt.yearStr⟩ : String) ++ "-" ++ monthNum ++ "-" ++
          padStart2 ⟨mt.dayStr⟩ ++ "T" ++ padStart2 (toString hour24) ++ ":" ++
          padStart2 ⟨mt.minuteStr⟩ ++ ":00.000Z"
        match parseIsoCanon isoString with
        | some d => some d.toISOString
        | none => none
      | none => none
    | none => none
  else none

/-- `parseTweetDate` (utils.ts lines 13-54; `DataProcessingService`'s private
copy at services.ts lines 1210-1260 is line-for-line identical).  `oracle`
models the implementation-defined generic `new Date(string)` fallback parser;
it may only produce valid dates (`none` models an Invalid Date).  The source's
surrounding `try/catch` returning `null` is subsumed by totality. -/
def parseTweetDate (oracle : String → Option JsDate) (dateStr : Option String) : Option String :=
  match dateStr with
  | none => none
  | some ds =>
    if ds = "" then none
    else
      match parseTweetDateFormatBranch (jsTrim ds) with
      | some s => some s
      | none =>
        match oracle (jsTrim ds) with
        | some d => some d.toISOString
        | none => none

/-- The `RawTweet` row interface (src/lib/supabase.ts); only the fields the
verified code reads. -/
structure RawTweet where
  tweet_id : Nat
  Content : Option String := none
  Likes : Option String := none
  Retweets : Option String := none
  Replies : Option String := none
  Views : Option String := none
  Date : Option String := none
deriving DecidableEq, Repr

/-- Filter body of `DataProcessingService.filterRecentTweets` (services.ts
lines 924-954): drop records without a (truthy) date, parse it, drop
unparseable ones, keep records whose year is at least 2024.  `getFullYear` on
an invalid date would be NaN, and `NaN >= 2024` is false. -/
def isRecentTweet (oracle : String → Option JsDate) (t : RawTweet) : Bool :=
  match t.Date with
  | none => false
  | some ds =>
    if ds = "" then false
    else
      match parseTweetDate oracle (some ds) with
      | none => false
      | some s =>
        match parseIsoCanon s with
        | some d => 2024 ≤ d.year
        | none => false

/-- `DataProcessingService.filterRecentTweets` (services.ts lines 921-958). -/
def filterRecentTweets (oracle : String → Option JsDate) (tweets : List RawTweet) :
    List RawTweet :=
  tweets.filter (isRecentTweet oracle)

/-- Filter body of `DataProcessingService.filterTweetsByYear` (services.ts
lines 966-995): like `isRecentTweet` but keeping exactly the records whose
year equals the `year` argument (default 2025). -/
def isYearTweet (oracle : String → Option JsDate) (year : Nat) (t : RawTweet) : Bool :=
  match t.Date with
  | none => false
  | some ds =>
    if ds = "" then false
    else
      match parseTweetDate oracle (some ds) with
      | none => false
      | some s =>
        match parseIsoCanon s with
        | some d => d.year == year
        | none => false

/-- `DataProcessingService.filterTweetsByYear` (services.ts lines 963-999). -/
def filterTweetsByYear (oracle : String → Option JsDate) (year : Nat)
    (tweets : List RawTweet) : List RawTweet :=
  tweets.filter (isYearTweet oracle year)

/-- The parsed calendar year of a record's date, as the filters compute it. -/
def tweetYear (oracle : String → Option JsDate) (t : RawTweet) : Option Nat :=
  match t.Date with
  | none => none
  | some ds =>
    if ds = "" then none
    else
      match parseTweetDate oracle (some ds) with
      | none => none
      | some s =>
        match parseIsoCanon s with
        | some d => some d.year
        | none => none

/-- `s.replace(/[^\d]/g, '')`. -/
def digitsOnly (s : String) : String :=
  ⟨s.data.filter Char.isDigit⟩

/-- `tweet.X ? parseInt(tweet.X.replace(/[^\d]/g, '')) || 0 : 0` — the
engagement-counter conversion of both result-mapping steps (services.ts lines
1077-1080 and 1363-1366): `parseInt` of an empty digit string is NaN, which
`|| 0` turns into 0. -/
def engagementCount (v : Option String) : Nat :=
  match v with
  | none => 0
  | some s =>
    if s = "" then 0
    else
      match (digitsOnly s).data with
      | [] => 0
      | ds => digitsToNat ds

/-- The `ProcessedTweet` row interface (src/lib/supabase.ts); `tweet_date` is
kept as the string the mapping steps store. -/
structure ProcessedTweet where
  original_tweet_id : Nat
  content : String
  processed_content : String
  sentiment : String
  confidence : ℚ
  likes_count : Nat
  retweets_count : Nat
  replies_count : Nat
  views_count : Nat
  tweet_date : String
  processed_at : Option String
deriving DecidableEq, Repr

/-- The per-record result-mapping step of `DataProcessingService.processTweets`
(services.ts lines 1071-1088): `tweet_date` is the re-parsed ISO date of the
raw record, with the current timestamp `now` substituted when parsing fails. -/
def processTweetsRow (oracle : String → Option JsDate) (now : String) (rawTweet : RawTweet)
    (cleanedContent : String) (sr : SentimentResult) : ProcessedTweet :=
  { original_tweet_id := rawTweet.tweet_id
    content := rawTweet.Content.getD ""
    processed_content := cleanedContent
    sentiment := sr.sentiment
    confidence := sr.confidence
    likes_count := engagementCount rawTweet.Likes
    retweets_count := engagementCount rawTweet.Retweets
    replies_count := engagementCount rawTweet.Replies
    views_count := engagementCount rawTweet.Views
    tweet_date := jsStringOr (parseTweetDate oracle rawTweet.Date) now
    processed_at := none }

/-- The per-record result-mapping step of
`DataProcessingService.processTweetsDirectly` (services.ts lines 1355-1370):
`tweet_date` is the raw date string itself (`tweet.Date || now`), not the
parsed ISO date. -/
def processTweetsDirectlyRow (now : String) (tweet : RawTweet) (cleanedContent : String)
    (sr : SentimentResult) : ProcessedTweet :=
  { original_tweet_id := tweet.tweet_id
    content := tweet.Content.getD ""
    processed_content := cleanedContent
    sentiment := sr.sentiment
    confidence := sr.confidence
    likes_count := engagementCount tweet.Likes
    retweets_count := engagementCount tweet.Retweets
    replies_count := engagementCount tweet.Replies
    views_count := engagementCount tweet.Views
    tweet_date := jsStringOr tweet.Date now
    processed_at := some now }

/-- `REGEX_PATTERNS.WHITESPACE = /\s+/g` replaced by a single space: every
maximal whitespace run becomes one `' '`.  The `fuel` argument only bounds the
number of scan steps so that the recursion is structural (each step consumes
at least one character); the wrapper supplies the list length, which is always
enough. -/
def collapseWsFuel : Nat → List Char → List Char
  | _, [] => []
  | 0, l => l
  | fuel + 1, c :: cs =>
    if isJsWs c then ' ' :: collapseWsFuel fuel (cs.dropWhile isJsWs)
    else c :: collapseWsFuel fuel cs

def collapseWs (l : List Char) : List Char :=
  collapseWsFuel l.length l

/-- Length of a match of `REGEX_PATTERNS.URL = /https?:\/\/[^\s]+/g` at the
head of `l` (`none` when there is no match here).  The greedy `s?` cannot
cause backtracking into a different match: if `https://` is followed by
whitespace, the `http` branch would need `://` where `s://` stands. -/
def urlMatchLen (l : List Char) : Option Nat :=
  if ['h', 't', 't', 'p', 's', ':', '/', '/'].isPrefixOf l then
    if ((l.drop 8).takeWhile (fun c => !isJsWs c)).length = 0 then none
    else some (8 + ((l.drop 8).takeWhile (fun c => !isJsWs c)).length)
  else if ['h', 't', 't', 'p', ':', '/', '/'].isPrefixOf l then
    if ((l.drop 7).takeWhile (fun c => !isJsWs c)).length = 0 then none
    else some (7 + ((l.drop 7).takeWhile (fun c => !isJsWs c)).length)
  else none

/-- `content.replace(REGEX_PATTERNS.URL, '')`: delete every URL match,
resuming the scan after each match; fuel as in `collapseWsFuel`. -/
def removeUrlsFuel : Nat → List Char → List Char
  | _, [] => []
  | 0, l => l
  | fuel + 1, c :: cs =>
    match urlMatchLen (c :: cs) with
    | some n => removeUrlsFuel fuel ((c :: cs).drop n)
    | none => c :: removeUrlsFuel fuel cs

def removeUrls (l : List Char) : List Char :=
  removeUrlsFuel l.length l

/-- `content.replace(REGEX_PATTERNS.MENTION, '')` with `MENTION = /@\w+/g`:
delete each `@` followed by at least one word character together with its
maximal word-character run; fuel as in `collapseWsFuel`. -/
def removeMentionsFuel : Nat → List Char → List Char
  | _, [] => []
  | 0, l => l
  | fuel + 1, c :: cs =>
    if c == '@' then
      if (cs.takeWhile isWordChar).isEmpty then '@' :: removeMentionsFuel fuel cs
      else removeMentionsFuel fuel (cs.drop (cs.takeWhile isWordChar).length)
    else c :: removeMentionsFuel fuel cs

def removeMentions (l : List Char) : List Char :=
  removeMentionsFuel l.length l

/-- `content.replace(REGEX_PATTERNS.HASHTAG, '')` with `HASHTAG = /#/g`. -/
def removeHash (l : List Char) : List Char :=
  l.filter (fun c => c ≠ '#')

/-- Character class of `REGEX_PATTERNS.EXCESSIVE_PUNCTUATION = /[.!?]{2,}/g`. -/
def isTermPunct (c : Char) : Bool :=
  c == '.' || c == '!' || c == '?'

/-- `content.replace(REGEX_PATTERNS.EXCESSIVE_PUNCTUATION, '.')`: every
maximal run of two or more terminal-punctuation characters becomes a single
period; single occurrences stay; fuel as in `collapseWsFuel`. -/
def collapsePunctFuel : Nat → List Char → List Char
  | _, [] => []
  | 0, l => l
  | fuel + 1, c :: cs =>
    if isTermPunct c then
      if (cs.takeWhile isTermPunct).isEmpty then c :: collapsePunctFuel fuel cs
      else '.' :: collapsePunctFuel fuel (cs.drop (cs.takeWhile isTermPunct).length)
    else c :: collapsePunctFuel fuel cs

def collapsePunct (l : List Char) : List Char :=
  collapsePunctFuel l.length l

/-- The cleaning pipeline of `cleanTweetContent` on character lists. -/
def cleanChars (l : List Char) : List Char :=
  trimChars (List.take 500 (collapsePunct (removeHash (removeMentions (removeUrls
    (collapseWs (trimChars l)))))))

/-- `cleanTweetContent` (utils.ts lines 125-137): trim, collapse whitespace,
strip URLs, strip mentions, strip hash markers, collapse punctuation runs,
truncate to 500 UTF-16 code units (`substring(0, 500)`, modelled as taking
500 characters), trim again.  The falsy guard returns `''` for the empty
string. -/
def cleanTweetContent (content : String) : String :=
  if content = "" then "" else ⟨cleanChars content.data⟩

theorem claudeBatchAnalyze_eq_map (f : String → SentimentResult) :
    ∀ l : List String, claudeBatchAnalyze f l = l.map f
  | [] => by simp [claudeBatchAnalyze]
  | t :: ts => by
    have ih := claudeBatchAnalyze_eq_map f ((t :: ts).drop 3)
    rw [claudeBatchAnalyze, ih, ← List.map_append, List.take_append_drop]
termination_by l => l.length
decreasing_by
  simp only [List.length_drop, List.length_cons]
  omega

theorem hfChunkLoop_eq_map (classify : String → Except JsError SentimentResult) :
    ∀ l : List String, hfChunkLoop classify l = l.map (hfBatchItem classify)
  | [] => by simp [hfChunkLoop]
  | t :: ts => by
    have ih := hfChunkLoop_eq_map classify ((t :: ts).drop 3)
    rw [hfChunkLoop, ih, ← List.map_append, List.take_append_drop]
termination_by l => l.length
decreasing_by
  simp only [List.length_drop, List.length_cons]
  omega

theorem analyzeSentimentsBatchHF_eq_map (classify : String → Except JsError SentimentResult) :
    ∀ l : List String, analyzeSentimentsBatchHF classify l = l.map (hfBatchItem classify)
  | [] => by simp [analyzeSentimentsBatchHF]
  | t :: ts => by
    have ih := analyzeSentimentsBatchHF_eq_map classify ((t :: ts).drop 10)
    rw [analyzeSentimentsBatchHF, ih, hfChunkLoop_eq_map, ← List.map_append,
      List.take_append_drop]
termination_by l => l.length
decreasing_by
  simp only [List.length_drop, List.length_cons]
  omega

/-- C1: batch classification returns an array of exactly the input's length,
and for every index i the element at position i is the classification result
for texts[i] — for both `ClaudeSentimentAnalysisService.analyzeSentimentsBatch`
(per-text classifier `f`) and `SentimentAnalysisService.analyzeSentimentsBatch`
(per-text classifier `classify` with its per-item neutral-fallback wrapper).
The chunk/batch slicing never reorders or drops items, whatever the per-item
results are. -/
theorem claim_C1_batch_order_preserved (f : String → SentimentResult)
    (classify : String → Except JsError SentimentResult) (texts : List String) :
    (claudeBatchAnalyze f texts).length = texts.length ∧
    (∀ i : Nat, (claudeBatchAnalyze f texts)[i]? = texts[i]?.map f) ∧
    (analyzeSentimentsBatchHF classify texts).length = texts.length ∧
    (∀ i : Nat, (analyzeSentimentsBatchHF classify texts)[i]? =
      texts[i]?.map (hfBatchItem classify)) := by
  rw [claudeBatchAnalyze_eq_map, analyzeSentimentsBatchHF_eq_map]
  exact ⟨List.length_map texts f, fun i => List.getElem?_map f texts i,
    List.length_map texts _, fun i => List.getElem?_map _ texts i⟩

/-- The HuggingFace mapping always keeps `sentiment` canonical and
`sentimentValue` in agreement with the fixed mapping, whatever the backend
label and score are. -/
theorem hfMapLabel_value_agreement (label : String) (score : ℚ) :
    specSentimentValue (hfMapLabel label score).sentiment =
      some (hfMapLabel label score).sentimentValue := by
  unfold hfMapLabel
  dsimp only
  split_ifs <;> rfl

/-- C2: evaluation at the failing input.  When the Claude response carries a
sentiment string outside the canonical five (here "mixed"), the returned
result's `sentiment` field is that invalid string — the source's
"defaulting to neutral" validation writes to a field that is never read — so
the claimed invariant that `sentiment` is always canonical fails, while
`sentimentValue` silently becomes 0. -/
theorem claim_C2_noncanonical_sentiment_flows_through :
    (claudeMapResponse "mixed" (some 0.9)).sentiment = "mixed" ∧
    validSentiments.contains (claudeMapResponse "mixed" (some 0.9)).sentiment = false ∧
    specSentimentValue (claudeMapResponse "mixed" (some 0.9)).sentiment = none ∧
    (claudeMapResponse "mixed" (some 0.9)).sentimentValue = 0 := by
  refine ⟨rfl, rfl, rfl, rfl⟩

/-- C6: the three-family threshold rule of the label interpretation, with
family membership decided by the source's matching cascade (positive checked
first, then negative, then neutral): the very-variant exactly when the score
is at least 0.8, neutral-to-positive promotion exactly when the score exceeds
0.72, unmatched labels map to neutral with value 0, the original backend label
is always preserved, and the boundary scores 0.8 and 0.72 land on
`very_negative` and `neutral` respectively. -/
theorem claim_C6_label_threshold_rule (label : String) (score : ℚ) :
    (hfPosFamily (jsToLower label) = true →
      ((hfMapLabel label score).sentiment, (hfMapLabel label score).sentimentValue) =
        if 0.8 ≤ score then ("very_positive", (2 : Int)) else ("positive", 1)) ∧
    (hfPosFamily (jsToLower label) = false → hfNegFamily (jsToLower label) = true →
      ((hfMapLabel label score).sentiment, (hfMapLabel label score).sentimentValue) =
        if 0.8 ≤ score then ("very_negative", (-2 : Int)) else ("negative", -1)) ∧
    (hfPosFamily (jsToLower label) = false → hfNegFamily (jsToLower label) = false →
      hfNeuFamily (jsToLower label) = true →
      ((hfMapLabel label score).sentiment, (hfMapLabel label score).sentimentValue) =
        if 0.72 < score then ("positive", (1 : Int)) else ("neutral", 0)) ∧
    (hfPosFamily (jsToLower label) = false → hfNegFamily (jsToLower label) = false →
      hfNeuFamily (jsToLower label) = false →
      ((hfMapLabel label score).sentiment, (hfMapLabel label score).sentimentValue) =
        ("neutral", 0)) ∧
    (hfMapLabel label score).label = label ∧
    (hfMapLabel "LABEL_0" 0.8).sentiment = "very_negative" ∧
    (hfMapLabel "LABEL_1" 0.72).sentiment = "neutral" := by
  have hb1 : (hfMapLabel "LABEL_0" 0.8).sentiment = "very_negative" := by
    unfold hfMapLabel
    dsimp only
    rw [if_neg (by decide : ¬ hfPosFamily (jsToLower "LABEL_0") = true),
      if_pos (by decide : hfNegFamily (jsToLower "LABEL_0") = true),
      if_pos (by norm_num : (0.8 : ℚ) ≥ 0.8)]
  have hb2 : (hfMapLabel "LABEL_1" 0.72).sentiment = "neutral" := by
    unfold hfMapLabel
    dsimp only
    rw [if_neg (by decide : ¬ hfPosFamily (jsToLower "LABEL_1") = true),
      if_neg (by decide : ¬ hfNegFamily (jsToLower "LABEL_1") = true),
      if_pos (by decide : hfNeuFamily (jsToLower "LABEL_1") = true),
      if_neg (by norm_num : ¬ (0.72 : ℚ) > 0.72)]
  refine ⟨?_, ?_, ?_, ?_, rfl, hb1, hb2⟩ <;>
    · intros
      unfold hfMapLabel
      dsimp only
      split_ifs <;> simp_all

/-- C6 witness: the threshold rule evaluated at the positive-family label
"LABEL_2" with score 0.9, which is at or above the 0.8 threshold. -/
theorem claim_C6_witness :
    ((hfMapLabel "LABEL_2" 0.9).sentiment, (hfMapLabel "LABEL_2" 0.9).sentimentValue) =
      ("very_positive", (2 : Int)) := by
  rw [(claim_C6_label_threshold_rule "LABEL_2" 0.9).1 (by decide),
    if_pos (by norm_num : (0.8 : ℚ) ≤ 0.9)]

/-- Leftmost maximum of two scored elements: the right one only wins when its
key is strictly larger. -/
def pickLeft (a b : HFScored) : HFScored :=
  if sortKey a < sortKey b then b else a

/-- Leftmost maximum lifted to optional elements. -/
def pickLeftOpt (a b : Option HFScored) : Option HFScored :=
  match a, b with
  | none, b => b
  | some x, none => some x
  | some x, some y => some (pickLeft x y)

theorem pickLeft_assoc (a b c : HFScored) :
    pickLeft (pickLeft a b) c = pickLeft a (pickLeft b c) := by
  unfold pickLeft
  split_ifs <;> first | rfl | (exfalso; linarith)

theorem pickLeftOpt_assoc (a b c : Option HFScored) :
    pickLeftOpt (pickLeftOpt a b) c = pickLeftOpt a (pickLeftOpt b c) := by
  rcases a with _ | x <;> rcases b with _ | y <;> rcases c with _ | z <;>
    simp [pickLeftOpt, pickLeft_assoc]

theorem head?_insertScoreDesc (x : HFScored) (l : List HFScored) :
    (insertScoreDesc x l).head? = pickLeftOpt l.head? (some x) := by
  cases l with
  | nil => rfl
  | cons y ys =>
    simp only [insertScoreDesc, List.head?_cons, pickLeftOpt, pickLeft]
    by_cases h : sortKey y < sortKey x
    · rw [if_pos h, if_pos h]
      rfl
    · rw [if_neg h, if_neg h]
      simp

theorem specFirstMaxByScore_cons (x : HFScored) (xs : List HFScored) :
    specFirstMaxByScore (x :: xs) = pickLeftOpt (some x) (specFirstMaxByScore xs) := by
  simp only [specFirstMaxByScore]
  cases h : specFirstMaxByScore xs with
  | none => rfl
  | some m =>
    simp only [pickLeftOpt, pickLeft]
    split_ifs <;> rfl

theorem head?_foldl_insertScoreDesc :
    ∀ (xs acc : List HFScored),
      (xs.foldl (fun a x => insertScoreDesc x a) acc).head? =
        pickLeftOpt acc.head? (specFirstMaxByScore xs)
  | [], acc => by simp [specFirstMaxByScore, pickLeftOpt]; cases acc.head? <;> rfl
  | x :: xs, acc => by
    rw [List.foldl_cons, head?_foldl_insertScoreDesc xs (insertScoreDesc x acc),
      head?_insertScoreDesc, specFirstMaxByScore_cons, pickLeftOpt_assoc]

/-- The head of the source's stable descending sort is exactly the
specification's "highest score, first occurrence wins" selection. -/
theorem head?_jsSortByScoreDesc (l : List HFScored) :
    (jsSortByScoreDesc l).head? = specFirstMaxByScore l := by
  rw [jsSortByScoreDesc, head?_foldl_insertScoreDesc l []]
  rfl

/-- C7 (amended): a top-level object response is used directly; when the
response is an array, its first element is taken — without consulting scores —
and only when that first element is itself an array of scored elements is the
highest-score element selected, with ties broken by first occurrence. -/
theorem claim_C7_response_selection (msg : String) (it : HFScored) (its : List HFScored)
    (rest : List HFElem) (h : its ≠ []) :
    extractTopHF msg (.obj it) = .ok it ∧
    extractTopHF msg (.arr (.obj it :: rest)) = .ok it ∧
    ∃ t, specFirstMaxByScore its = some t ∧
      extractTopHF msg (.arr (.nested its :: rest)) = .ok t := by
  refine ⟨rfl, rfl, ?_⟩
  have hhead := head?_jsSortByScoreDesc its
  cases hs : jsSortByScoreDesc its with
  | nil =>
    rw [hs] at hhead
    cases its with
    | nil => exact absurd rfl h
    | cons a as =>
      rw [specFirstMaxByScore_cons] at hhead
      cases h2 : specFirstMaxByScore as <;> rw [h2] at hhead <;>
        simp [pickLeftOpt] at hhead
  | cons t tl =>
    refine ⟨t, ?_, ?_⟩
    · rw [hs] at hhead
      exact hhead.symm
    · simp only [extractTopHF]
      rw [hs]

/-- C7 witness: the amended selection rule applied to a concrete nonempty
nested list, where the later higher-score element is picked. -/
theorem claim_C7_witness :
    ∃ t, specFirstMaxByScore
        [⟨some "NEGATIVE", none, some 0.1, none⟩, ⟨some "POSITIVE", none, some 0.9, none⟩] =
          some t ∧
      extractTopHF "Unexpected response format from HuggingFace API"
        (.arr (.nested [⟨some "NEGATIVE", none, some 0.1, none⟩,
          ⟨some "POSITIVE", none, some 0.9, none⟩] :: [])) = .ok t :=
  (claim_C7_response_selection "Unexpected response format from HuggingFace API"
    ⟨none, none, none, none⟩ _ [] (List.cons_ne_nil _ _)).2.2

/-- C7 counterexample: for a response that is a flat array of scored elements,
the source selects the first element even when a later element has a strictly
higher score, contradicting the claim that the highest-score element wins. -/
theorem claim_C7_counterexample :
    extractTopHF "Unexpected response format from HuggingFace API"
        (.arr [.obj ⟨some "NEG", none, some 0.1, none⟩, .obj ⟨some "POS", none, some 0.9, none⟩]) =
      .ok ⟨some "NEG", none, some 0.1, none⟩ ∧
    specFirstMaxByScore [⟨some "NEG", none, some 0.1, none⟩, ⟨some "POS", none, some 0.9, none⟩] =
      some ⟨some "POS", none, some 0.9, none⟩ ∧
    sortKey ⟨some "NEG", none, some 0.1, none⟩ < sortKey ⟨some "POS", none, some 0.9, none⟩ := by
  refine ⟨rfl, ?_, by norm_num [sortKey]⟩
  norm_num [specFirstMaxByScore, sortKey]

theorem analyzeSentimentHF_isOk (key : String) (hkey : key ≠ "") (primary : Nat → FetchOutcome)
    (fbT : FetchOutcome) (text : String) (rc : Nat) :
    (analyzeSentimentHF key primary fbT text rc).isOk = true := by
  rw [analyzeSentimentHF, if_neg hkey]
  dsimp only
  split
  · rfl
  · split
    · exact analyzeSentimentHF_isOk key hkey primary fbT text (rc + 1)
    · split
      · rfl
      · rfl
termination_by 2 - rc
decreasing_by
  simp_all only [Bool.and_eq_true, decide_eq_true_eq]
  omega

theorem analyzeSentimentHF_allNetFail (key : String) (hkey : key ≠ "") (text : String)
    (rc : Nat) :
    analyzeSentimentHF key (fun _ => .netError "Failed to fetch") (.netError "Failed to fetch")
      text rc = .ok hfNeuFallback := by
  rw [analyzeSentimentHF, if_neg hkey]
  dsimp only [hfAttemptError]
  have hnet : isNetworkError (JsError.typeError "Failed to fetch") = true := by decide
  by_cases hrc : rc < 2
  · rw [dif_pos (by rw [hnet]; simpa using hrc)]
    exact analyzeSentimentHF_allNetFail key hkey text (rc + 1)
  · rw [dif_neg (by simp [hrc])]
    rw [if_neg (by decide)]
termination_by 2 - rc
decreasing_by
  omega

theorem analyzeSentimentHF_primary404_fallbackFails (key : String) (hkey : key ≠ "")
    (text : String) :
    analyzeSentimentHF key (fun _ => .httpError 404 "Not Found") (.netError "Failed to fetch")
      text 0 = .ok hfNeuFallback := by
  rw [analyzeSentimentHF, if_neg hkey]
  dsimp only [hfAttemptError]
  rw [dif_neg (by decide), if_pos (by decide)]
  rfl

theorem claudeServiceAnalyze_allNetFail (text : String) (rc : Nat) :
    claudeServiceAnalyze (fun _ => .netError "Failed to fetch") text rc = claudeNeuFallback := by
  rw [claudeServiceAnalyze]
  dsimp only [claudeAttemptError, Option.getD]
  have hnet : isNetworkError (JsError.typeError "Failed to fetch") = true := by decide
  by_cases hrc : rc < 2
  · rw [dif_pos (by rw [hnet]; simpa using hrc)]
    exact claudeServiceAnalyze_allNetFail text (rc + 1)
  · rw [dif_neg (by simp [hrc])]
termination_by 2 - rc
decreasing_by
  omega

/-- C3 (amended): with a configured (non-empty) API key,
`SentimentAnalysisService.analyzeSentiment` resolves to a SentimentResult for
every input text, every transport behaviour and every starting retry count —
no exception escapes — and under an always-failing transport it resolves to
the neutral fallback result.  With an empty API key the source instead throws
before any network call (see the counterexample), which is the one correction
to the claim. -/
theorem claim_C3_classify_total_when_configured (key : String) (hkey : key ≠ "")
    (primary : Nat → FetchOutcome) (fbT : FetchOutcome) (text : String) (rc : Nat) :
    (analyzeSentimentHF key primary fbT text rc).isOk = true ∧
    analyzeSentimentHF key (fun _ => .netError "Failed to fetch")
      (.netError "Failed to fetch") text 0 = .ok hfNeuFallback :=
  ⟨analyzeSentimentHF_isOk key hkey primary fbT text rc,
   analyzeSentimentHF_allNetFail key hkey text 0⟩

/-- C3 witness: concrete instance with a configured key, the empty-string
text and an always-failing transport. -/
theorem claim_C3_witness :
    (analyzeSentimentHF "k" (fun _ => .netError "Failed to fetch")
        (.netError "Failed to fetch") "" 0).isOk = true ∧
    analyzeSentimentHF "k" (fun _ => .netError "Failed to fetch")
      (.netError "Failed to fetch") "" 0 = .ok hfNeuFallback :=
  claim_C3_classify_total_when_configured "k" (by decide)
    (fun _ => .netError "Failed to fetch") (.netError "Failed to fetch") "" 0

/-- C3 counterexample: with an unconfigured (empty) API key the source throws
"HuggingFace API key not configured" even for an ordinary input and transport,
so classify as shipped can raise to its caller. -/
theorem claim_C3_counterexample :
    analyzeSentimentHF "" (fun _ => .netError "Failed to fetch")
      (.netError "Failed to fetch") "hello" 0 =
      .error (.jsError "HuggingFace API key not configured") := by
  rw [analyzeSentimentHF, if_pos rfl]

/-- C8 (amended): when the primary backend reports the model unavailable (404)
and the fallback backend's round trip fails too, the HuggingFace service
returns exactly the neutral fallback with label `NEU_FALLBACK`; the backend
Claude service returns label `CLAUDE_NEU_FALLBACK` after its retry budget is
exhausted; and the Claude CORS-proxy path returns label
`CLAUDE_PROXY_FALLBACK` — not `<BACKEND>_NEU_FALLBACK` as claimed.  All three
are terminal, non-raising outcomes with sentiment neutral, confidence 0.5,
value 0 and score 0.5. -/
theorem claim_C8_exhausted_fallback_results (key : String) (hkey : key ≠ "") (text : String) :
    analyzeSentimentHF key (fun _ => .httpError 404 "Not Found") (.netError "Failed to fetch")
        text 0 =
      .ok { sentiment := "neutral", confidence := 0.5, sentimentValue := 0
            label := "NEU_FALLBACK", score := 0.5 } ∧
    claudeServiceAnalyze (fun _ => .netError "Failed to fetch") text 0 =
      { sentiment := "neutral", confidence := 0.5, sentimentValue := 0
        label := "CLAUDE_NEU_FALLBACK", score := 0.5 } ∧
    analyzeSentimentWithProxy (.netError "Failed to fetch") text =
      { sentiment := "neutral", confidence := 0.5, sentimentValue := 0
        label := "CLAUDE_PROXY_FALLBACK", score := 0.5 } :=
  ⟨analyzeSentimentHF_primary404_fallbackFails key hkey text,
   claudeServiceAnalyze_allNetFail text 0, rfl⟩

/-- C8 witness: concrete instance of the exhausted-backends theorem. -/
theorem claim_C8_witness :
    analyzeSentimentHF "k" (fun _ => .httpError 404 "Not Found") (.netError "Failed to fetch")
        "x" 0 =
      .ok { sentiment := "neutral", confidence := 0.5, sentimentValue := 0
            label := "NEU_FALLBACK", score := 0.5 } ∧
    claudeServiceAnalyze (fun _ => .netError "Failed to fetch") "x" 0 =
      { sentiment := "neutral", confidence := 0.5, sentimentValue := 0
        label := "CLAUDE_NEU_FALLBACK", score := 0.5 } ∧
    analyzeSentimentWithProxy (.netError "Failed to fetch") "x" =
      { sentiment := "neutral", confidence := 0.5, sentimentValue := 0
        label := "CLAUDE_PROXY_FALLBACK", score := 0.5 } :=
  claim_C8_exhausted_fallback_results "k" (by decide) "x"

/-- C8 counterexample: the proxy path's terminal fallback label is
`CLAUDE_PROXY_FALLBACK`, which does not end in `NEU_FALLBACK`, so the claimed
exact label shape `<BACKEND>_NEU_FALLBACK` does not hold on that path. -/
theorem claim_C8_counterexample :
    (analyzeSentimentWithProxy (.netError "Failed to fetch") "x").label =
      "CLAUDE_PROXY_FALLBACK" ∧
    "NEU_FALLBACK".data.isSuffixOf "CLAUDE_PROXY_FALLBACK".data = false :=
  ⟨rfl, by decide⟩

theorem digitVal_digitChar (n : Nat) : digitVal (digitChar n) = n % 10 := by
  have h : n % 10 = 0 ∨ n % 10 = 1 ∨ n % 10 = 2 ∨ n % 10 = 3 ∨ n % 10 = 4 ∨ n % 10 = 5 ∨
      n % 10 = 6 ∨ n % 10 = 7 ∨ n % 10 = 8 ∨ n % 10 = 9 := by omega
  unfold digitChar digitVal
  rcases h with h|h|h|h|h|h|h|h|h|h <;> rw [h] <;> rfl

theorem isDigit_digitChar (n : Nat) : (digitChar n).isDigit = true := by
  have h : n % 10 = 0 ∨ n % 10 = 1 ∨ n % 10 = 2 ∨ n % 10 = 3 ∨ n % 10 = 4 ∨ n % 10 = 5 ∨
      n % 10 = 6 ∨ n % 10 = 7 ∨ n % 10 = 8 ∨ n % 10 = 9 := by omega
  unfold digitChar
  rcases h with h|h|h|h|h|h|h|h|h|h <;> rw [h] <;> rfl

theorem toISOString_data (d : JsDate) : d.toISOString.data =
    [digitChar (d.year / 1000), digitChar (d.year / 100), digitChar (d.year / 10),
     digitChar d.year, '-', digitChar (d.month / 10), digitChar d.month, '-',
     digitChar (d.day / 10), digitChar d.day, 'T', digitChar (d.hour / 10), digitChar d.hour,
     ':', digitChar (d.minute / 10), digitChar d.minute, ':', digitChar (d.second / 10),
     digitChar d.second, '.', digitChar (d.millis / 100), digitChar (d.millis / 10),
     digitChar d.millis, 'Z'] := by
  simp [JsDate.toISOString, pad4, pad3, pad2, String.data_append]

theorem toISOString_ne_empty (d : JsDate) : d.toISOString ≠ "" := by
  intro h
  have h2 := congrArg String.data h
  rw [toISOString_data] at h2
  simp at h2

theorem mkWfDate_some {a b : JsDate} (h : mkWfDate a = some b) : b.wellFormed = true := by
  unfold mkWfDate at h
  split at h
  · rename_i hwf
    cases h
    exact hwf
  · cases h

theorem parseIsoCanon_wellFormed {s : String} {d : JsDate} (h : parseIsoCanon s = some d) :
    d.wellFormed = true := by
  unfold parseIsoCanon at h
  split at h
  · split at h
    · exact mkWfDate_some h
    · cases h
  · cases h

theorem parseIsoCanon_toISOString (d : JsDate) (h : d.wellFormed = true) :
    parseIsoCanon d.toISOString = some d := by
  obtain ⟨y, mo, da, ho, mi, se, ms⟩ := d
  simp only [JsDate.wellFormed, Bool.and_eq_true, decide_eq_true_eq] at h
  unfold parseIsoCanon
  rw [toISOString_data]
  dsimp only
  rw [if_pos (by simp [isDigit_digitChar])]
  simp only [digitVal_digitChar]
  have hrec : ({ year := y / 1000 % 10 * 1000 + y / 100 % 10 * 100 + y / 10 % 10 * 10 + y % 10
                 month := mo / 10 % 10 * 10 + mo % 10
                 day := da / 10 % 10 * 10 + da % 10
                 hour := ho / 10 % 10 * 10 + ho % 10
                 minute := mi / 10 % 10 * 10 + mi % 10
                 second := se / 10 % 10 * 10 + se % 10
                 millis := ms / 100 % 10 * 100 + ms / 10 % 10 * 10 + ms % 10 } : JsDate) =
      { year := y, month := mo, day := da, hour := ho, minute := mi, second := se,
        millis := ms } := by
    simp only [JsDate.mk.injEq]
    omega
  rw [hrec]
  unfold mkWfDate
  rw [if_pos (show JsDate.wellFormed
      { year := y, month := mo, day := da, hour := ho, minute := mi, second := se,
        millis := ms } = true by
    simp only [JsDate.wellFormed, Bool.and_eq_true, decide_eq_true_eq]
    omega)]

theorem parseTweetDateFormatBranch_sound {t : String} {s : String}
    (h : parseTweetDateFormatBranch t = some s) :
    ∃ d : JsDate, d.wellFormed = true ∧ s = d.toISOString ∧ parseIsoCanon s = some d := by
  unfold parseTweetDateFormatBranch at h
  split at h
  · split at h
    · split at h
      · dsimp only at h
        split at h
        · rename_i d hpc
          cases h
          exact ⟨d, parseIsoCanon_wellFormed hpc, rfl,
            parseIsoCanon_toISOString d (parseIsoCanon_wellFormed hpc)⟩
        · cases h
      · cases h
    · cases h
  · cases h

theorem parseTweetDate_sound (oracle : String → Option JsDate)
    (horacle : ∀ s d, oracle s = some d → d.wellFormed = true)
    (inp : Option String) (out : String) (h : parseTweetDate oracle inp = some out) :
    ∃ d : JsDate, d.wellFormed = true ∧ out = d.toISOString ∧ parseIsoCanon out = some d := by
  cases inp with
  | none => cases h
  | some ds =>
    unfold parseTweetDate at h
    dsimp only at h
    split at h
    · cases h
    · split at h
      · rename_i s heq
        cases h
        exact parseTweetDateFormatBranch_sound heq
      · split at h
        · rename_i d hor
          cases h
          have hwf := horacle _ _ hor
          exact ⟨d, hwf, rfl, parseIsoCanon_toISOString d hwf⟩
        · cases h

theorem parseTweetDate_ne_some_empty (oracle : String → Option JsDate)
    (horacle : ∀ s d, oracle s = some d → d.wellFormed = true) (inp : Option String) :
    parseTweetDate oracle inp ≠ some "" := by
  intro h
  obtain ⟨d, _, hout, _⟩ := parseTweetDate_sound oracle horacle inp "" h
  exact toISOString_ne_empty d hout.symm

/-- C10: `parseTweetDate` is total (modelled as an `Option`-valued function:
the source's try/catch and explicit null returns can never raise), and every
non-null return value is the `toISOString` rendering of a date that passed the
validity check — in particular re-parsing the returned string as a canonical
ISO-8601 timestamp succeeds and yields that same valid date.  `oracle` is any
behaviour of the implementation-defined generic `new Date(string)` fallback,
constrained only to produce component-valid dates. -/
theorem claim_C10_parseTweetDate_valid_iso (oracle : String → Option JsDate)
    (horacle : ∀ s d, oracle s = some d → d.wellFormed = true)
    (inp : Option String) (out : String) (h : parseTweetDate oracle inp = some out) :
    ∃ d : JsDate, d.wellFormed = true ∧ out = d.toISOString ∧ parseIsoCanon out = some d :=
  parseTweetDate_sound oracle horacle inp out h

/-- C10 witness: the documented date format parses to its canonical ISO
rendering, with the generic-parse oracle instantiated to the canonical ISO
parser itself. -/
theorem claim_C10_witness :
    ∃ d : JsDate, d.wellFormed = true ∧ "2015-10-29T05:59:00.000Z" = d.toISOString ∧
      parseIsoCanon "2015-10-29T05:59:00.000Z" = some d :=
  claim_C10_parseTweetDate_valid_iso parseIsoCanon
    (fun _ _ hpc => parseIsoCanon_wellFormed hpc)
    (some "October 29, 2015 at 05:59 AM") "2015-10-29T05:59:00.000Z" (by rfl)

/-- C9 (amended): in the mapping step of `processTweets`, the stored
`tweet_date` is the record's parsed ISO-8601 date whenever parsing succeeds,
and the supplied current timestamp when the date is missing or unparseable —
as claimed.  In the mapping step of `processTweetsDirectly`, however, the
stored `tweet_date` is the raw date string itself (`tweet.Date || now`), not
the parsed date, with `now` substituted only for a missing or empty raw
string. -/
theorem claim_C9_tweet_date_mapping (oracle : String → Option JsDate)
    (horacle : ∀ s d, oracle s = some d → d.wellFormed = true)
    (now : String) (raw : RawTweet) (cc : String) (sr : SentimentResult) :
    (∀ s, parseTweetDate oracle raw.Date = some s →
      (processTweetsRow oracle now raw cc sr).tweet_date = s) ∧
    (parseTweetDate oracle raw.Date = none →
      (processTweetsRow oracle now raw cc sr).tweet_date = now) ∧
    (processTweetsDirectlyRow now raw cc sr).tweet_date = jsStringOr raw.Date now := by
  refine ⟨?_, ?_, rfl⟩
  · intro s hs
    have hne : s ≠ "" := by
      intro hcontra
      exact parseTweetDate_ne_some_empty oracle horacle raw.Date (hcontra ▸ hs)
    show jsStringOr (parseTweetDate oracle raw.Date) now = s
    rw [hs]
    simp [jsStringOr, hne]
  · intro hnone
    show jsStringOr (parseTweetDate oracle raw.Date) now = now
    rw [hnone]
    rfl

/-- C9 witness: concrete instance with a parseable date and the canonical ISO
parser as the generic-parse oracle. -/
theorem claim_C9_witness :
    (processTweetsRow parseIsoCanon "2025-01-01T00:00:00.000Z"
        { tweet_id := 1, Date := some "January 5, 2024 at 01:00 PM" } "hi"
        hfNeuFallback).tweet_date = "2024-01-05T13:00:00.000Z" :=
  (claim_C9_tweet_date_mapping parseIsoCanon (fun _ _ hpc => parseIsoCanon_wellFormed hpc)
    "2025-01-01T00:00:00.000Z" { tweet_id := 1, Date := some "January 5, 2024 at 01:00 PM" }
    "hi" hfNeuFallback).1 "2024-01-05T13:00:00.000Z" (by rfl)

/-- C9 counterexample: in the `processTweetsDirectly` mapping step the stored
`tweet_date` is the raw free-form date string, not the record's parsed
ISO-8601 date, even though that date parses successfully — refuting the claim
for this result-mapping step. -/
theorem claim_C9_counterexample :
    (processTweetsDirectlyRow "2025-01-01T00:00:00.000Z"
        { tweet_id := 1, Date := some "January 5, 2024 at 01:00 PM" } "hi"
        hfNeuFallback).tweet_date = "January 5, 2024 at 01:00 PM" ∧
    parseTweetDate parseIsoCanon (some "January 5, 2024 at 01:00 PM") =
      some "2024-01-05T13:00:00.000Z" ∧
    ("January 5, 2024 at 01:00 PM" : String) ≠ "2024-01-05T13:00:00.000Z" := by
  refine ⟨rfl, by rfl, by decide⟩

theorem isRecentTweet_iff (oracle : String → Option JsDate) (t : RawTweet) :
    isRecentTweet oracle t = true ↔ ∃ y, tweetYear oracle t = some y ∧ 2024 ≤ y := by
  unfold isRecentTweet tweetYear
  cases t.Date with
  | none => simp
  | some ds =>
    dsimp only
    by_cases hds : ds = ""
    · simp [hds]
    · rw [if_neg hds, if_neg hds]
      cases hp : parseTweetDate oracle (some ds) with
      | none => simp
      | some s =>
        cases hc : parseIsoCanon s with
        | none => simp [hc]
        | some d => simp [hc]

theorem isYearTweet_iff (oracle : String → Option JsDate) (year : Nat) (t : RawTweet) :
    isYearTweet oracle year t = true ↔ tweetYear oracle t = some year := by
  unfold isYearTweet tweetYear
  cases t.Date with
  | none => simp
  | some ds =>
    dsimp only
    by_cases hds : ds = ""
    · simp [hds]
    · rw [if_neg hds, if_neg hds]
      cases hp : parseTweetDate oracle (some ds) with
      | none => simp
      | some s =>
        cases hc : parseIsoCanon s with
        | none => simp [hc]
        | some d => simp [hc]

/-- C5 (amended): `filterRecentTweets` keeps a record exactly when its date
string parses and the parsed calendar year is at least 2024 (missing or
unparseable dates exclude the record, without raising), and a record dated
Jan 1 of the cutoff year at 00:00 is eligible while Dec 31 of the preceding
year at 23:59 is not; `filterTweetsByYear`, however, keeps a record exactly
when the parsed year EQUALS its year argument, not when it is greater or
equal. -/
theorem claim_C5_date_filter_characterization (oracle : String → Option JsDate)
    (t : RawTweet) (ts : List RawTweet) (year : Nat) :
    (t ∈ filterRecentTweets oracle ts ↔
      t ∈ ts ∧ ∃ y, tweetYear oracle t = some y ∧ 2024 ≤ y) ∧
    (t ∈ filterTweetsByYear oracle year ts ↔ t ∈ ts ∧ tweetYear oracle t = some year) ∧
    isRecentTweet parseIsoCanon
      { tweet_id := 1, Date := some "January 1, 2024 at 12:00 AM" } = true ∧
    isRecentTweet parseIsoCanon
      { tweet_id := 2, Date := some "December 31, 2023 at 11:59 PM" } = false := by
  refine ⟨?_, ?_, by rfl, by rfl⟩
  · rw [filterRecentTweets, List.mem_filter, isRecentTweet_iff]
  · rw [filterTweetsByYear, List.mem_filter, isYearTweet_iff]

/-- C5 counterexample: a record whose date parses to the year 2026 is dropped
by `filterTweetsByYear` with cutoff year 2025, although 2026 ≥ 2025 — the
filter keeps a year match only when it is exact, refuting the claimed
"greater than or equal" rule. -/
theorem claim_C5_counterexample :
    tweetYear parseIsoCanon { tweet_id := 1, Date := some "March 1, 2026 at 10:00 AM" } =
      some 2026 ∧
    2025 ≤ 2026 ∧
    filterTweetsByYear parseIsoCanon 2025
      [{ tweet_id := 1, Date := some "March 1, 2026 at 10:00 AM" }] = [] := by
  refine ⟨by rfl, by omega, by rfl⟩

theorem containsSeq_iff_infix (needle : List Char) :
    ∀ hay : List Char, containsSeq needle hay = true ↔ needle <:+: hay
  | [] => by
    simp [containsSeq, List.isEmpty_iff, List.infix_nil]
  | c :: t => by
    simp only [containsSeq, Bool.or_eq_true, List.isPrefixOf_iff_prefix,
      containsSeq_iff_infix needle t, List.infix_cons_iff]

theorem containsSeq_eq_false_mono {n h₂ h₁ : List Char} (hc : containsSeq n h₁ = false)
    (hinf : h₂ <:+: h₁) : containsSeq n h₂ = false := by
  by_contra hne
  rw [Bool.not_eq_false, containsSeq_iff_infix] at hne
  rw [← Bool.not_eq_true, containsSeq_iff_infix] at hc
  exact hc (hne.trans hinf)

theorem head?_dropWhile (p : Char → Bool) :
    ∀ l : List Char, ∀ x ∈ (l.dropWhile p).head?, p x = false
  | [], x => by simp
  | c :: cs, x => by
    rw [List.dropWhile_cons]
    split
    · exact head?_dropWhile p cs x
    · rename_i hpc
      simp only [List.head?_cons, Option.mem_def, Option.some.injEq]
      rintro rfl
      exact Bool.not_eq_true _ ▸ hpc

theorem dropWhile_eq_self_of_head (p : Char → Bool) (l : List Char)
    (h : ∀ x ∈ l.head?, p x = false) : l.dropWhile p = l := by
  cases l with
  | nil => rfl
  | cons c cs =>
    rw [List.dropWhile_cons, if_neg]
    simp only [List.head?_cons, Option.mem_def, Option.some.injEq, forall_eq'] at h
    simp [h]

theorem prefix_head? {l₁ l₂ : List Char} (h : l₁ <+: l₂) (hne : l₁ ≠ []) :
    l₁.head? = l₂.head? := by
  obtain ⟨t, rfl⟩ := h
  cases l₁ with
  | nil => exact absurd rfl hne
  | cons c cs => rfl

theorem reverse_dropWhile_reverse_prefix (p : Char → Bool) (x : List Char) :
    ((x.reverse.dropWhile p).reverse) <+: x := by
  rw [← List.reverse_suffix, List.reverse_reverse]
  exact List.dropWhile_suffix p

theorem trimChars_prefix_dropWhile (l : List Char) :
    trimChars l <+: l.dropWhile isJsWs :=
  reverse_dropWhile_reverse_prefix isJsWs (l.dropWhile isJsWs)

theorem infix_trimChars (l : List Char) : trimChars l <:+: l :=
  (trimChars_prefix_dropWhile l).isInfix.trans (List.dropWhile_suffix isJsWs).isInfix

theorem trimChars_head (l : List Char) : ∀ x ∈ (trimChars l).head?, isJsWs x = false := by
  intro x hx
  by_cases hne : trimChars l = []
  · rw [hne] at hx
    cases hx
  · rw [prefix_head? (trimChars_prefix_dropWhile l) hne] at hx
    exact head?_dropWhile isJsWs l x hx

theorem trimChars_idem (l : List Char) : trimChars (trimChars l) = trimChars l := by
  have h1 : (trimChars l).dropWhile isJsWs = trimChars l :=
    dropWhile_eq_self_of_head isJsWs (trimChars l) (trimChars_head l)
  show (((trimChars l).dropWhile isJsWs).reverse.dropWhile isJsWs).reverse = trimChars l
  rw [h1]
  have h2 : (trimChars l).reverse.dropWhile isJsWs = (trimChars l).reverse := by
    apply dropWhile_eq_self_of_head
    show ∀ x ∈ ((((l.dropWhile isJsWs).reverse.dropWhile isJsWs).reverse).reverse).head?,
      isJsWs x = false
    rw [List.reverse_reverse]
    exact head?_dropWhile isJsWs (l.dropWhile isJsWs).reverse
  rw [h2, List.reverse_reverse]

theorem trimChars_length_le (l : List Char) : (trimChars l).length ≤ l.length :=
  (infix_trimChars l).sublist.length_le

theorem takeWhile_length_drop (p : Char → Bool) :
    ∀ l : List Char, l.drop (l.takeWhile p).length = l.dropWhile p
  | [] => rfl
  | c :: cs => by
    rw [List.takeWhile_cons, List.dropWhile_cons]
    split
    · simpa using takeWhile_length_drop p cs
    · simp

theorem mem_collapseWsFuel {a : Char} :
    ∀ (fuel : Nat) (l : List Char), a ∈ collapseWsFuel fuel l → a ∈ l ∨ a = ' '
  | _, [] => by simp [collapseWsFuel]
  | 0, c :: cs => fun h => Or.inl h
  | fuel + 1, c :: cs => by
    simp only [collapseWsFuel]
    split
    · intro h
      rcases List.mem_cons.mp h with h | h
      · exact Or.inr h
      · rcases mem_collapseWsFuel fuel (cs.dropWhile isJsWs) h with h2 | h2
        · exact Or.inl (List.mem_cons_of_mem c ((List.dropWhile_suffix isJsWs).subset h2))
        · exact Or.inr h2
    · intro h
      rcases List.mem_cons.mp h with h | h
      · exact Or.inl (h ▸ List.mem_cons_self a cs)
      · rcases mem_collapseWsFuel fuel cs h with h2 | h2
        · exact Or.inl (List.mem_cons_of_mem c h2)
        · exact Or.inr h2

theorem mem_collapsePunctFuel {a : Char} :
    ∀ (fuel : Nat) (l : List Char), a ∈ collapsePunctFuel fuel l → a ∈ l ∨ a = '.'
  | _, [] => by simp [collapsePunctFuel]
  | 0, c :: cs => fun h => Or.inl h
  | fuel + 1, c :: cs => by
    simp only [collapsePunctFuel]
    split
    · split
      · intro h
        rcases List.mem_cons.mp h with h | h
        · exact Or.inl (h ▸ List.mem_cons_self a cs)
        · rcases mem_collapsePunctFuel fuel cs h with h2 | h2
          · exact Or.inl (List.mem_cons_of_mem c h2)
          · exact Or.inr h2
      · intro h
        rcases List.mem_cons.mp h with h | h
        · exact Or.inr h
        · rcases mem_collapsePunctFuel fuel (cs.drop (cs.takeWhile isTermPunct).length) h with
            h2 | h2
          · exact Or.inl (List.mem_cons_of_mem c ((List.drop_suffix _ _).subset h2))
          · exact Or.inr h2
    · intro h
      rcases List.mem_cons.mp h with h | h
      · exact Or.inl (h ▸ List.mem_cons_self a cs)
      · rcases mem_collapsePunctFuel fuel cs h with h2 | h2
        · exact Or.inl (List.mem_cons_of_mem c h2)
        · exact Or.inr h2

theorem prefix_collapseWsFuel {w : List Char} (hw : ∀ c ∈ w, isJsWs c = false) :
    ∀ (fuel : Nat) (l : List Char), l.length ≤ fuel →
      w <+: collapseWsFuel fuel l → w <+: l
  | _, [], _ => by simp [collapseWsFuel]
  | 0, c :: cs, hlen => by simp at hlen
  | fuel + 1, c :: cs, hlen => by
    simp only [collapseWsFuel]
    split
    · rename_i hc
      cases w with
      | nil => exact fun _ => List.nil_prefix
      | cons w0 w' =>
        intro hpre
        obtain ⟨hw0, -⟩ := List.cons_prefix_cons.mp hpre
        have := hw w0 (List.mem_cons_self w0 w')
        rw [hw0] at this
        simp [isJsWs] at this
    · cases w with
      | nil => exact fun _ => List.nil_prefix
      | cons w0 w' =>
        intro hpre
        obtain ⟨hw0, hrest⟩ := List.cons_prefix_cons.mp hpre
        have hlen2 : cs.length ≤ fuel := by
          simp only [List.length_cons] at hlen
          omega
        have := prefix_collapseWsFuel (fun c hc => hw c (List.mem_cons_of_mem w0 hc))
          fuel cs hlen2 hrest
        exact List.cons_prefix_cons.mpr ⟨hw0, this⟩

theorem infix_collapseWsFuel {w : List Char} (hw : ∀ c ∈ w, isJsWs c = false)
    (hne : w ≠ []) :
    ∀ (fuel : Nat) (l : List Char), l.length ≤ fuel →
      w <:+: collapseWsFuel fuel l → w <:+: l
  | _, [], _ => by simp [collapseWsFuel]
  | 0, c :: cs, hlen => by simp at hlen
  | fuel + 1, c :: cs, hlen => by
    have hlen2 : cs.length ≤ fuel := by
      simp only [List.length_cons] at hlen
      omega
    simp only [collapseWsFuel]
    split
    · rename_i hc
      intro hinf
      rcases List.infix_cons_iff.mp hinf with hpre | htail
      · cases w with
        | nil => exact absurd rfl hne
        | cons w0 w' =>
          obtain ⟨hw0, -⟩ := List.cons_prefix_cons.mp hpre
          have := hw w0 (List.mem_cons_self w0 w')
          rw [hw0] at this
          simp [isJsWs] at this
      · have hlen3 : (cs.dropWhile isJsWs).length ≤ fuel :=
          le_trans (List.dropWhile_suffix isJsWs).length_le hlen2
        have h2 := infix_collapseWsFuel hw hne fuel (cs.dropWhile isJsWs) hlen3 htail
        exact List.infix_cons_iff.mpr
          (Or.inr (h2.trans (List.dropWhile_suffix isJsWs).isInfix))
    · intro hinf
      rcases List.infix_cons_iff.mp hinf with hpre | htail
      · exact (prefix_collapseWsFuel hw (fuel + 1) (c :: cs) hlen
          (by simp only [collapseWsFuel]; rw [if_neg (by assumption)]; exact hpre)).isInfix
      · exact List.infix_cons_iff.mpr
          (Or.inr (infix_collapseWsFuel hw hne fuel cs hlen2 htail))

theorem prefix_collapsePunctFuel {w : List Char} (hw : ∀ c ∈ w, isTermPunct c = false) :
    ∀ (fuel : Nat) (l : List Char), l.length ≤ fuel →
      w <+: collapsePunctFuel fuel l → w <+: l
  | _, [], _ => by simp [collapsePunctFuel]
  | 0, c :: cs, hlen => by simp at hlen
  | fuel + 1, c :: cs, hlen => by
    have hlen2 : cs.length ≤ fuel := by
      simp only [List.length_cons] at hlen
      omega
    simp only [collapsePunctFuel]
    split
    · rename_i hc
      split
      · cases w with
        | nil => exact fun _ => List.nil_prefix
        | cons w0 w' =>
          intro hpre
          obtain ⟨hw0, -⟩ := List.cons_prefix_cons.mp hpre
          have := hw w0 (List.mem_cons_self w0 w')
          rw [hw0, hc] at this
          cases this
      · cases w with
        | nil => exact fun _ => List.nil_prefix
        | cons w0 w' =>
          intro hpre
          obtain ⟨hw0, -⟩ := List.cons_prefix_cons.mp hpre
          have := hw w0 (List.mem_cons_self w0 w')
          rw [hw0] at this
          simp [isTermPunct] at this
    · cases w with
      | nil => exact fun _ => List.nil_prefix
      | cons w0 w' =>
        intro hpre
        obtain ⟨hw0, hrest⟩ := List.cons_prefix_cons.mp hpre
        have := prefix_collapsePunctFuel (fun c hc => hw c (List.mem_cons_of_mem w0 hc))
          fuel cs hlen2 hrest
        exact List.cons_prefix_cons.mpr ⟨hw0, this⟩

theorem infix_collapsePunctFuel {w : List Char} (hw : ∀ c ∈ w, isTermPunct c = false)
    (hne : w ≠ []) :
    ∀ (fuel : Nat) (l : List Char), l.length ≤ fuel →
      w <:+: collapsePunctFuel fuel l → w <:+: l
  | _, [], _ => by simp [collapsePunctFuel]
  | 0, c :: cs, hlen => by simp at hlen
  | fuel + 1, c :: cs, hlen => by
    have hlen2 : cs.length ≤ fuel := by
      simp only [List.length_cons] at hlen
      omega
    simp only [collapsePunctFuel]
    split
    · rename_i hc
      split
      · rename_i hrun
        intro hinf
        rcases List.infix_cons_iff.mp hinf with hpre | htail
        · cases w with
          | nil => exact absurd rfl hne
          | cons w0 w' =>
            obtain ⟨hw0, -⟩ := List.cons_prefix_cons.mp hpre
            have := hw w0 (List.mem_cons_self w0 w')
            rw [hw0, hc] at this
            cases this
        · exact List.infix_cons_iff.mpr
            (Or.inr (infix_collapsePunctFuel hw hne fuel cs hlen2 htail))
      · intro hinf
        rcases List.infix_cons_iff.mp hinf with hpre | htail
        · cases w with
          | nil => exact absurd rfl hne
          | cons w0 w' =>
            obtain ⟨hw0, -⟩ := List.cons_prefix_cons.mp hpre
            have := hw w0 (List.mem_cons_self w0 w')
            rw [hw0] at this
            simp [isTermPunct] at this
        · have hlen3 : (cs.drop (cs.takeWhile isTermPunct).length).length ≤ fuel :=
            le_trans (List.drop_suffix _ _).length_le hlen2
          have h2 := infix_collapsePunctFuel hw hne fuel _ hlen3 htail
          exact List.infix_cons_iff.mpr (Or.inr (h2.trans (List.drop_suffix _ _).isInfix))
    · rename_i hc
      intro hinf
      rcases List.infix_cons_iff.mp hinf with hpre | htail
      · exact (prefix_collapsePunctFuel hw (fuel + 1) (c :: cs) hlen
          (by simp only [collapsePunctFuel]; rw [if_neg hc]; exact hpre)).isInfix
      · exact List.infix_cons_iff.mpr
          (Or.inr (infix_collapsePunctFuel hw hne fuel cs hlen2 htail))

theorem urlMatchLen_http_prefix {l : List Char} {n : Nat} (h : urlMatchLen l = some n) :
    ['h', 't', 't', 'p'] <+: l := by
  unfold urlMatchLen at h
  split at h
  · rename_i hp
    exact List.IsPrefix.trans (by decide) (List.isPrefixOf_iff_prefix.mp hp)
  · split at h
    · rename_i hp
      exact List.IsPrefix.trans (by decide) (List.isPrefixOf_iff_prefix.mp hp)
    · cases h

theorem removeUrlsFuel_of_no_http :
    ∀ (fuel : Nat) (l : List Char), l.length ≤ fuel →
      containsSeq ['h', 't', 't', 'p'] l = false → removeUrlsFuel fuel l = l
  | _, [], _ => fun _ => by simp [removeUrlsFuel]
  | 0, c :: cs, hlen => by simp at hlen
  | fuel + 1, c :: cs, hlen => by
    intro hc
    have hlen2 : cs.length ≤ fuel := by
      simp only [List.length_cons] at hlen
      omega
    simp only [removeUrlsFuel]
    cases hm : urlMatchLen (c :: cs) with
    | some n =>
      exfalso
      have hpre := urlMatchLen_http_prefix hm
      rw [← Bool.not_eq_true, containsSeq_iff_infix] at hc
      exact hc hpre.isInfix
    | none =>
      have hc2 : containsSeq ['h', 't', 't', 'p'] cs = false := by
        simp only [containsSeq, Bool.or_eq_false_iff] at hc
        exact hc.2
      rw [removeUrlsFuel_of_no_http fuel cs hlen2 hc2]

theorem removeUrls_of_no_http {l : List Char}
    (hc : containsSeq ['h', 't', 't', 'p'] l = false) : removeUrls l = l :=
  removeUrlsFuel_of_no_http l.length l le_rfl hc

theorem removeMentionsFuel_of_no_at :
    ∀ (fuel : Nat) (l : List Char), l.length ≤ fuel → '@' ∉ l →
      removeMentionsFuel fuel l = l
  | _, [], _ => fun _ => by simp [removeMentionsFuel]
  | 0, c :: cs, hlen => by simp at hlen
  | fuel + 1, c :: cs, hlen => by
    intro hat
    have hlen2 : cs.length ≤ fuel := by
      simp only [List.length_cons] at hlen
      omega
    have hcne : c ≠ '@' := fun hcc => hat (hcc ▸ List.mem_cons_self c cs)
    have hcs : '@' ∉ cs := fun hm => hat (List.mem_cons_of_mem c hm)
    simp only [removeMentionsFuel]
    rw [if_neg (by simpa using hcne)]
    rw [removeMentionsFuel_of_no_at fuel cs hlen2 hcs]

theorem removeMentions_of_no_at {l : List Char} (hat : '@' ∉ l) : removeMentions l = l :=
  removeMentionsFuel_of_no_at l.length l le_rfl hat

theorem removeHash_of_no_hash {l : List Char} (hh : '#' ∉ l) : removeHash l = l := by
  rw [removeHash, List.filter_eq_self]
  intro a ha
  have hne : a ≠ '#' := fun heq => hh (heq ▸ ha)
  simpa using hne

/-- The head of the list, if any, is not whitespace. -/
def headNotWs : List Char → Bool
  | [] => true
  | d :: _ => !isJsWs d

/-- Whitespace-normal form: every whitespace character is a single `' '` not
followed by further whitespace — exactly the lists fixed by `collapseWs`. -/
def wsNormal : List Char → Bool
  | [] => true
  | c :: cs => (!isJsWs c || (c == ' ' && headNotWs cs)) && wsNormal cs

/-- The head of the list, if any, is not terminal punctuation. -/
def headNotPunct : List Char → Bool
  | [] => true
  | d :: _ => !isTermPunct d

/-- Punctuation-normal form: no two adjacent terminal-punctuation characters —
exactly the lists fixed by `collapsePunct`. -/
def punctNormal : List Char → Bool
  | [] => true
  | c :: cs => (!isTermPunct c || headNotPunct cs) && punctNormal cs

theorem dropWhile_eq_self_of_headNotWs {l : List Char} (h : headNotWs l = true) :
    l.dropWhile isJsWs = l := by
  cases l with
  | nil => rfl
  | cons c cs =>
    simp only [headNotWs, Bool.not_eq_true'] at h
    rw [List.dropWhile_cons, if_neg (by simp [h])]

theorem headNotWs_collapseWsFuel :
    ∀ (fuel : Nat) (l : List Char), headNotWs l = true →
      headNotWs (collapseWsFuel fuel l) = true
  | _, [], _ => by simp [collapseWsFuel, headNotWs]
  | 0, c :: cs, h => h
  | fuel + 1, c :: cs, h => by
    simp only [headNotWs, Bool.not_eq_true'] at h
    simp only [collapseWsFuel]
    rw [if_neg (by simp [h])]
    simp [headNotWs, h]

theorem wsNormal_collapseWsFuel :
    ∀ (fuel : Nat) (l : List Char), l.length ≤ fuel →
      wsNormal (collapseWsFuel fuel l) = true
  | _, [], _ => by simp [collapseWsFuel, wsNormal]
  | 0, c :: cs, hlen => by simp at hlen
  | fuel + 1, c :: cs, hlen => by
    have hlen2 : cs.length ≤ fuel := by
      simp only [List.length_cons] at hlen
      omega
    simp only [collapseWsFuel]
    split
    · have hlen3 : (cs.dropWhile isJsWs).length ≤ fuel :=
        le_trans (List.dropWhile_suffix isJsWs).length_le hlen2
      have hhead : headNotWs (cs.dropWhile isJsWs) = true := by
        cases hd : cs.dropWhile isJsWs with
        | nil => rfl
        | cons d ds =>
          have := head?_dropWhile isJsWs cs d (by rw [hd]; rfl)
          simp [headNotWs, this]
      simp only [wsNormal, Bool.and_eq_true]
      refine ⟨?_, wsNormal_collapseWsFuel fuel (cs.dropWhile isJsWs) hlen3⟩
      simp [headNotWs_collapseWsFuel fuel (cs.dropWhile isJsWs) hhead]
    · rename_i hc
      simp only [wsNormal, Bool.and_eq_true]
      refine ⟨?_, wsNormal_collapseWsFuel fuel cs hlen2⟩
      simp only [Bool.or_eq_true, Bool.not_eq_true']
      exact Or.inl (by simpa using hc)

theorem collapseWsFuel_eq_self :
    ∀ (fuel : Nat) (l : List Char), l.length ≤ fuel → wsNormal l = true →
      collapseWsFuel fuel l = l
  | _, [], _ => fun _ => by simp [collapseWsFuel]
  | 0, c :: cs, hlen => by simp at hlen
  | fuel + 1, c :: cs, hlen => by
    intro hn
    have hlen2 : cs.length ≤ fuel := by
      simp only [List.length_cons] at hlen
      omega
    simp only [wsNormal, Bool.and_eq_true, Bool.or_eq_true, Bool.not_eq_true'] at hn
    obtain ⟨hcond, hrest⟩ := hn
    simp only [collapseWsFuel]
    split
    · rename_i hc
      rcases hcond with hfalse | ⟨hsp, hhd⟩
      · rw [hc] at hfalse
        cases hfalse
      · rw [dropWhile_eq_self_of_headNotWs hhd,
          collapseWsFuel_eq_self fuel cs hlen2 hrest]
        have : c = ' ' := by simpa using hsp
        rw [this]
    · rw [collapseWsFuel_eq_self fuel cs hlen2 hrest]

theorem isTermPunct_not_ws {c : Char} (h : isTermPunct c = true) : isJsWs c = false := by
  simp only [isTermPunct, Bool.or_eq_true, beq_iff_eq] at h
  rcases h with (h | h) | h <;> rw [h] <;> rfl

theorem takeWhile_nil_of_headNotPunct {l : List Char} (h : headNotPunct l = true) :
    l.takeWhile isTermPunct = [] := by
  cases l with
  | nil => rfl
  | cons c cs =>
    simp only [headNotPunct, Bool.not_eq_true'] at h
    rw [List.takeWhile_cons, if_neg (by simp [h])]

theorem headNotPunct_collapsePunctFuel :
    ∀ (fuel : Nat) (l : List Char), headNotPunct l = true →
      headNotPunct (collapsePunctFuel fuel l) = true
  | _, [], _ => by simp [collapsePunctFuel, headNotPunct]
  | 0, c :: cs, h => h
  | fuel + 1, c :: cs, h => by
    simp only [headNotPunct, Bool.not_eq_true'] at h
    simp only [collapsePunctFuel]
    rw [if_neg (by simp [h])]
    simp [headNotPunct, h]

theorem headNotWs_collapsePunctFuel :
    ∀ (fuel : Nat) (l : List Char), headNotWs l = true →
      headNotWs (collapsePunctFuel fuel l) = true
  | _, [], _ => by simp [collapsePunctFuel, headNotWs]
  | 0, c :: cs, h => h
  | fuel + 1, c :: cs, h => by
    simp only [headNotWs, Bool.not_eq_true'] at h
    simp only [collapsePunctFuel]
    split
    · split
      · simp [headNotWs, h]
      · simp only [headNotWs, Bool.not_eq_true']
        rfl
    · simp [headNotWs, h]

theorem punctNormal_collapsePunctFuel :
    ∀ (fuel : Nat) (l : List Char), l.length ≤ fuel →
      punctNormal (collapsePunctFuel fuel l) = true
  | _, [], _ => by simp [collapsePunctFuel, punctNormal]
  | 0, c :: cs, hlen => by simp at hlen
  | fuel + 1, c :: cs, hlen => by
    have hlen2 : cs.length ≤ fuel := by
      simp only [List.length_cons] at hlen
      omega
    simp only [collapsePunctFuel]
    split
    · rename_i hc
      split
      · rename_i hrun
        have hhd : headNotPunct cs = true := by
          cases cs with
          | nil => rfl
          | cons d ds =>
            simp only [List.takeWhile_cons, List.isEmpty_iff] at hrun
            by_cases hd : isTermPunct d = true
            · rw [if_pos hd] at hrun
              cases hrun
            · simp [headNotPunct, Bool.not_eq_true _ ▸ hd]
        simp only [punctNormal, Bool.and_eq_true]
        exact ⟨by simp [headNotPunct_collapsePunctFuel fuel cs hhd],
          punctNormal_collapsePunctFuel fuel cs hlen2⟩
      · have hdw : cs.drop (cs.takeWhile isTermPunct).length = cs.dropWhile isTermPunct :=
          takeWhile_length_drop isTermPunct cs
        have hhd : headNotPunct (cs.dropWhile isTermPunct) = true := by
          cases hd : cs.dropWhile isTermPunct with
          | nil => rfl
          | cons d ds =>
            have := head?_dropWhile isTermPunct cs d (by rw [hd]; rfl)
            simp [headNotPunct, this]
        have hlen3 : (cs.drop (cs.takeWhile isTermPunct).length).length ≤ fuel :=
          le_trans (List.drop_suffix _ _).length_le hlen2
        simp only [punctNormal, Bool.and_eq_true]
        refine ⟨?_, punctNormal_collapsePunctFuel fuel _ hlen3⟩
        rw [hdw]
        simp [headNotPunct_collapsePunctFuel fuel (cs.dropWhile isTermPunct) hhd]
    · rename_i hc
      simp only [punctNormal, Bool.and_eq_true]
      refine ⟨?_, punctNormal_collapsePunctFuel fuel cs hlen2⟩
      simp only [Bool.or_eq_true, Bool.not_eq_true']
      exact Or.inl (by simpa using hc)

theorem collapsePunctFuel_eq_self :
    ∀ (fuel : Nat) (l : List Char), l.length ≤ fuel → punctNormal l = true →
      collapsePunctFuel fuel l = l
  | _, [], _ => fun _ => by simp [collapsePunctFuel]
  | 0, c :: cs, hlen => by simp at hlen
  | fuel + 1, c :: cs, hlen => by
    intro hn
    have hlen2 : cs.length ≤ fuel := by
      simp only [List.length_cons] at hlen
      omega
    simp only [punctNormal, Bool.and_eq_true, Bool.or_eq_true, Bool.not_eq_true'] at hn
    obtain ⟨hcond, hrest⟩ := hn
    simp only [collapsePunctFuel]
    split
    · rename_i hc
      rcases hcond with hfalse | hhd
      · rw [hc] at hfalse
        cases hfalse
      · rw [if_pos (by simp [takeWhile_nil_of_headNotPunct hhd]),
          collapsePunctFuel_eq_self fuel cs hlen2 hrest]
    · rw [collapsePunctFuel_eq_self fuel cs hlen2 hrest]

theorem wsNormal_append_right :
    ∀ {l r : List Char}, wsNormal (l ++ r) = true → wsNormal r = true
  | [], r => fun h => h
  | c :: l, r => fun h => by
    simp only [List.cons_append, wsNormal, Bool.and_eq_true] at h
    exact wsNormal_append_right h.2

theorem wsNormal_suffix {l r : List Char} (h : wsNormal l = true) (hs : r <:+ l) :
    wsNormal r = true := by
  obtain ⟨t, rfl⟩ := hs
  exact wsNormal_append_right h

theorem headNotWs_append {l r : List Char} (hl : headNotWs l = true) (hr : headNotWs r = true) :
    headNotWs (l ++ r) = true := by
  cases l with
  | nil => exact hr
  | cons c cs => exact hl

theorem headNotWs_of_append {l r : List Char} (h : headNotWs (l ++ r) = true) (hne : l ≠ []) :
    headNotWs l = true := by
  cases l with
  | nil => exact absurd rfl hne
  | cons c cs => exact h

theorem wsNormal_append_left :
    ∀ {l r : List Char}, wsNormal (l ++ r) = true → wsNormal l = true
  | [], r => fun _ => rfl
  | c :: l, r => fun h => by
    simp only [List.cons_append, wsNormal, Bool.and_eq_true] at h
    obtain ⟨hcond, hrest⟩ := h
    simp only [wsNormal, Bool.and_eq_true]
    refine ⟨?_, wsNormal_append_left hrest⟩
    simp only [Bool.or_eq_true, Bool.and_eq_true] at hcond ⊢
    rcases hcond with hcf | ⟨hsp, hhd⟩
    · exact Or.inl hcf
    · refine Or.inr ⟨hsp, ?_⟩
      cases l with
      | nil => rfl
      | cons d ds => exact hhd

theorem wsNormal_prefix {l r : List Char} (h : wsNormal l = true) (hp : r <+: l) :
    wsNormal r = true := by
  obtain ⟨t, rfl⟩ := hp
  exact wsNormal_append_left h

theorem wsNormal_infix {l r : List Char} (h : wsNormal l = true) (hi : r <:+: l) :
    wsNormal r = true := by
  obtain ⟨s, t, rfl⟩ := hi
  exact wsNormal_append_right (wsNormal_append_left h)

theorem punctNormal_append_right :
    ∀ {l r : List Char}, punctNormal (l ++ r) = true → punctNormal r = true
  | [], r => fun h => h
  | c :: l, r => fun h => by
    simp only [List.cons_append, punctNormal, Bool.and_eq_true] at h
    exact punctNormal_append_right h.2

theorem punctNormal_append_left :
    ∀ {l r : List Char}, punctNormal (l ++ r) = true → punctNormal l = true
  | [], r => fun _ => rfl
  | c :: l, r => fun h => by
    simp only [List.cons_append, punctNormal, Bool.and_eq_true] at h
    obtain ⟨hcond, hrest⟩ := h
    simp only [punctNormal, Bool.and_eq_true]
    refine ⟨?_, punctNormal_append_left hrest⟩
    simp only [Bool.or_eq_true] at hcond ⊢
    rcases hcond with hcf | hhd
    · exact Or.inl hcf
    · refine Or.inr ?_
      cases l with
      | nil => rfl
      | cons d ds => exact hhd

theorem punctNormal_infix {l r : List Char} (h : punctNormal l = true) (hi : r <:+: l) :
    punctNormal r = true := by
  obtain ⟨s, t, rfl⟩ := hi
  exact punctNormal_append_right (punctNormal_append_left h)

theorem wsNormal_collapsePunctFuel :
    ∀ (fuel : Nat) (l : List Char), l.length ≤ fuel → wsNormal l = true →
      wsNormal (collapsePunctFuel fuel l) = true
  | _, [], _ => fun _ => by simp [collapsePunctFuel, wsNormal]
  | 0, c :: cs, hlen => by simp at hlen
  | fuel + 1, c :: cs, hlen => by
    intro hn
    have hlen2 : cs.length ≤ fuel := by
      simp only [List.length_cons] at hlen
      omega
    simp only [wsNormal, Bool.and_eq_true, Bool.or_eq_true, Bool.not_eq_true'] at hn
    obtain ⟨hcond, hrest⟩ := hn
    simp only [collapsePunctFuel]
    split
    · rename_i hc
      split
      · simp only [wsNormal, Bool.and_eq_true]
        refine ⟨?_, wsNormal_collapsePunctFuel fuel cs hlen2 hrest⟩
        simp only [Bool.or_eq_true, Bool.not_eq_true']
        exact Or.inl (isTermPunct_not_ws hc)
      · have hdw : cs.drop (cs.takeWhile isTermPunct).length = cs.dropWhile isTermPunct :=
          takeWhile_length_drop isTermPunct cs
        have hlen3 : (cs.drop (cs.takeWhile isTermPunct).length).length ≤ fuel :=
          le_trans (List.drop_suffix _ _).length_le hlen2
        have hrest2 : wsNormal (cs.drop (cs.takeWhile isTermPunct).length) = true := by
          rw [hdw]
          exact wsNormal_suffix hrest (List.dropWhile_suffix isTermPunct)
        simp only [wsNormal, Bool.and_eq_true]
        refine ⟨?_, wsNormal_collapsePunctFuel fuel _ hlen3 hrest2⟩
        simp only [Bool.or_eq_true, Bool.not_eq_true']
        exact Or.inl (by rfl)
    · rename_i hc
      simp only [wsNormal, Bool.and_eq_true]
      refine ⟨?_, wsNormal_collapsePunctFuel fuel cs hlen2 hrest⟩
      simp only [Bool.or_eq_true, Bool.and_eq_true, Bool.not_eq_true']
      rcases hcond with hcf | ⟨hsp, hhd⟩
      · exact Or.inl hcf
      · exact Or.inr ⟨hsp, headNotWs_collapsePunctFuel fuel cs hhd⟩

/-- The cleaning pipeline with the three strip stages (URLs, mentions, hash
marks) elided — equal to `cleanChars` on inputs where those stages are the
identity. -/
def gChars (l : List Char) : List Char :=
  trimChars (List.take 500 (collapsePunct (collapseWs (trimChars l))))

/-- Inputs on which the three strip stages have nothing to strip: no `'@'`,
no `'#'`, and no occurrence of `"http"`. -/
def stripFree (l : List Char) : Prop :=
  '@' ∉ l ∧ '#' ∉ l ∧ containsSeq ['h', 't', 't', 'p'] l = false

theorem stripFree_collapseWs_trim {l : List Char} (h : stripFree l) :
    stripFree (collapseWs (trimChars l)) := by
  obtain ⟨hat, hhash, hhttp⟩ := h
  have hmem : ∀ a ∈ collapseWs (trimChars l), a ∈ l ∨ a = ' ' := by
    intro a ha
    rcases mem_collapseWsFuel (trimChars l).length (trimChars l) ha with h2 | h2
    · exact Or.inl ((infix_trimChars l).subset h2)
    · exact Or.inr h2
  refine ⟨?_, ?_, ?_⟩
  · intro hmm
    rcases hmem '@' hmm with h2 | h2
    · exact hat h2
    · cases h2
  · intro hmm
    rcases hmem '#' hmm with h2 | h2
    · exact hhash h2
    · cases h2
  · by_contra hne
    rw [Bool.not_eq_false, containsSeq_iff_infix] at hne
    have h2 := infix_collapseWsFuel (by decide) (by decide)
      (trimChars l).length (trimChars l) le_rfl hne
    have h3 := h2.trans (infix_trimChars l)
    rw [← Bool.not_eq_true, containsSeq_iff_infix] at hhttp
    exact hhttp h3

theorem cleanChars_eq_gChars {l : List Char} (h : stripFree l) : cleanChars l = gChars l := by
  obtain ⟨hat, hhash, hhttp⟩ := stripFree_collapseWs_trim h
  rw [cleanChars, gChars, removeUrls_of_no_http hhttp, removeMentions_of_no_at hat,
    removeHash_of_no_hash hhash]

theorem stripFree_gChars {l : List Char} (h : stripFree l) : stripFree (gChars l) := by
  obtain ⟨hat, hhash, hhttp⟩ := stripFree_collapseWs_trim h
  have hmem : ∀ a ∈ gChars l, a ∈ collapseWs (trimChars l) ∨ a = '.' := by
    intro a ha
    have h1 : a ∈ List.take 500 (collapsePunct (collapseWs (trimChars l))) :=
      (infix_trimChars _).subset ha
    have h2 : a ∈ collapsePunct (collapseWs (trimChars l)) := List.take_subset _ _ h1
    exact mem_collapsePunctFuel _ _ h2
  refine ⟨?_, ?_, ?_⟩
  · intro hmm
    rcases hmem '@' hmm with h2 | h2
    · exact hat h2
    · cases h2
  · intro hmm
    rcases hmem '#' hmm with h2 | h2
    · exact hhash h2
    · cases h2
  · by_contra hne
    rw [Bool.not_eq_false, containsSeq_iff_infix] at hne
    have h1 : ['h', 't', 't', 'p'] <:+: List.take 500 (collapsePunct (collapseWs (trimChars l))) :=
      hne.trans (infix_trimChars _)
    have h2 : ['h', 't', 't', 'p'] <:+: collapsePunct (collapseWs (trimChars l)) :=
      h1.trans (List.take_prefix _ _).isInfix
    have h3 := infix_collapsePunctFuel (by decide) (by decide)
      (collapseWs (trimChars l)).length (collapseWs (trimChars l)) le_rfl h2
    rw [← Bool.not_eq_true, containsSeq_iff_infix] at hhttp
    exact hhttp h3

theorem gChars_idem (l : List Char) : gChars (gChars l) = gChars l := by
  have htrim : trimChars (gChars l) = gChars l := trimChars_idem _
  have hws : wsNormal (gChars l) = true := by
    have h1 : wsNormal (collapseWs (trimChars l)) = true :=
      wsNormal_collapseWsFuel _ _ le_rfl
    have h2 : wsNormal (collapsePunct (collapseWs (trimChars l))) = true :=
      wsNormal_collapsePunctFuel _ _ le_rfl h1
    have h3 := wsNormal_prefix h2 (List.take_prefix 500 _)
    exact wsNormal_infix h3 (infix_trimChars _)
  have hpunct : punctNormal (gChars l) = true := by
    have h1 : punctNormal (collapsePunct (collapseWs (trimChars l))) = true :=
      punctNormal_collapsePunctFuel _ _ le_rfl
    have h2 := punctNormal_infix h1 ((List.take_prefix 500 _).isInfix)
    exact punctNormal_infix h2 (infix_trimChars _)
  have hlen : (gChars l).length ≤ 500 := by
    have h1 := trimChars_length_le (List.take 500 (collapsePunct (collapseWs (trimChars l))))
    have h2 := List.length_take_le 500 (collapsePunct (collapseWs (trimChars l)))
    exact le_trans h1 h2
  show trimChars (List.take 500 (collapsePunct (collapseWs (trimChars (gChars l))))) = gChars l
  rw [htrim]
  rw [show collapseWs (gChars l) = gChars l from
    collapseWsFuel_eq_self _ _ le_rfl hws]
  rw [show collapsePunct (gChars l) = gChars l from
    collapsePunctFuel_eq_self _ _ le_rfl hpunct]
  rw [List.take_of_length_le hlen]
  exact htrim

theorem data_mk (l : List Char) : (⟨l⟩ : String).data = l := rfl

/-- C4 (amended): text cleaning is idempotent for every input containing no
`'@'`, no `'#'`, and no occurrence of `"http"` — that is, whenever the URL,
mention and hashtag strip stages have nothing to remove.  On general inputs
cleaning is NOT a projection, because hash removal can expose a fresh mention
(and URL or mention removal can leave a double space) that only a second pass
cleans; see the counterexample. -/
theorem claim_C4_cleaning_idempotent_on_strip_free_input (x : String)
    (hat : '@' ∉ x.data) (hhash : '#' ∉ x.data)
    (hhttp : containsSeq ['h', 't', 't', 'p'] x.data = false) :
    cleanTweetContent (cleanTweetContent x) = cleanTweetContent x := by
  by_cases hx : x = ""
  · rw [hx]
    rfl
  · have hinner : cleanTweetContent x = ⟨cleanChars x.data⟩ := by
      rw [cleanTweetContent, if_neg hx]
    rw [hinner]
    by_cases hy : (⟨cleanChars x.data⟩ : String) = ""
    · rw [cleanTweetContent, if_pos hy, hy]
    · rw [cleanTweetContent, if_neg hy]
      have hsf : stripFree x.data := ⟨hat, hhash, hhttp⟩
      rw [data_mk]
      refine congrArg String.mk ?_
      rw [cleanChars_eq_gChars hsf]
      rw [cleanChars_eq_gChars (stripFree_gChars hsf)]
      exact gChars_idem x.data

/-- C4 witness: a strip-free input on which idempotence is obtained from the
amended theorem. -/
theorem claim_C4_witness :
    cleanTweetContent (cleanTweetContent "Hello   world!!  ok") =
      cleanTweetContent "Hello   world!!  ok" :=
  claim_C4_cleaning_idempotent_on_strip_free_input "Hello   world!!  ok"
    (by decide) (by decide) (by decide)

/-- C4 counterexample: cleaning is not idempotent as claimed.  On "@#a" the
first pass removes the hash mark, exposing the mention "@a", which only the
second pass removes, so cleaning "@#a" gives "@a" while cleaning twice gives
the empty string. -/
theorem claim_C4_counterexample :
    cleanTweetContent "@#a" = "@a" ∧
    cleanTweetContent (cleanTweetContent "@#a") = "" ∧
    cleanTweetContent (cleanTweetContent "@#a") ≠ cleanTweetContent "@#a" := by
  decide
